import Mathlib

/-!
Verification of the polycube enumerator `cubes.py` (mikepound/cubes).

A numpy 3-D byte array of shape `(dx, dy, dz)` holding {0,1} values is
modelled as a `Grid`: the three dimensions plus a natural number whose
bit `(x*dy + y)*dz + z` is the cell `(x,y,z)` (numpy's row-major flat
order).  All functions of the source file are translated on this model:
`all_rotations`, `crop_cube`, `expand_cube`, `rle`, `cube_exists_rle`
and `generate_polycubes` (with `use_cache=False`; the cache branch is
file I/O and is not part of the pure computation).
-/

set_option maxRecDepth 20000

namespace PolyCube

/-- A 3-D {0,1} voxel grid: dimensions and the row-major flat bit content.
Bit `(x * dy + y) * dz + z` of `cells` is cell `(x, y, z)`. -/
structure Grid where
  dx : Nat
  dy : Nat
  dz : Nat
  cells : Nat
deriving DecidableEq, Repr

namespace Grid

/-- Total number of cells of the bounding box. -/
def size (g : Grid) : Nat := g.dx * g.dy * g.dz

/-- Cell lookup; out-of-range coordinates read as empty. -/
def get (g : Grid) (x y z : Nat) : Bool :=
  decide (x < g.dx) && decide (y < g.dy) && decide (z < g.dz) &&
    Nat.testBit g.cells ((x * g.dy + y) * g.dz + z)

/-- The dimension along a coordinate axis. -/
def dim (g : Grid) : Fin 3 → Nat
  | 0 => g.dx
  | 1 => g.dy
  | 2 => g.dz

end Grid

/-- Little-endian pack of the bits `f i, f (i+1), ..., f (i+n-1)` into a
natural number.  (Defined through `Nat.rec` so that kernel reduction of
grid computations is cheap.) -/
def bitsFrom (f : Nat → Bool) (i : Nat) (n : Nat) : Nat :=
  Nat.rec (motive := fun _ => Nat → Nat) (fun _ => 0)
    (fun _ r j => (if f j then 1 else 0) + 2 * r (j + 1)) n i

theorem bitsFrom_zero (f : Nat → Bool) (i : Nat) : bitsFrom f i 0 = 0 := rfl

theorem bitsFrom_succ (f : Nat → Bool) (i n : Nat) :
    bitsFrom f i (n + 1) = (if f i then 1 else 0) + 2 * bitsFrom f (i + 1) n := rfl

/-- Build a grid of the given dimensions from a cell predicate
(row-major packing, as numpy stores arrays). -/
def Grid.ofFun (dx dy dz : Nat) (f : Nat → Nat → Nat → Bool) : Grid :=
  ⟨dx, dy, dz, bitsFrom (fun i => f (i / dz / dy) (i / dz % dy) (i % dz)) 0 (dx * dy * dz)⟩

/-- Well-formedness: no bits beyond the bounding box. Every numpy array
satisfies this; it corresponds to the flat buffer having exactly
`dx*dy*dz` entries. -/
def Grid.WF (g : Grid) : Prop := g.cells < 2 ^ g.size

instance (g : Grid) : Decidable g.WF := by unfold Grid.WF; infer_instance

/- ### Lemmas about `bitsFrom`, `ofFun`, `get` -/

theorem bitsFrom_lt (f : Nat → Bool) : ∀ n i, bitsFrom f i n < 2 ^ n := by
  intro n
  induction n with
  | zero => intro i; simp [bitsFrom_zero]
  | succ n ih =>
    intro i
    have h := ih (i + 1)
    rw [bitsFrom_succ, pow_succ]
    cases f i <;> simp <;> omega

theorem testBit_bitsFrom (f : Nat → Bool) :
    ∀ n i j, Nat.testBit (bitsFrom f i n) j = if j < n then f (i + j) else false := by
  intro n
  induction n with
  | zero => intro i j; simp [bitsFrom_zero]
  | succ n ih =>
    intro i j
    have hform : bitsFrom f i (n+1) = 2 * bitsFrom f (i+1) n + (if f i then 1 else 0) := by
      rw [bitsFrom_succ]; omega
    cases j with
    | zero =>
      rw [hform, Nat.testBit_zero]
      cases h : f i <;> simp [h, Nat.mul_add_mod]
    | succ j =>
      rw [hform, Nat.testBit_succ]
      have hdiv : (2 * bitsFrom f (i+1) n + (if f i then 1 else 0)) / 2
          = bitsFrom f (i+1) n := by
        cases f i <;> simp <;> omega
      rw [hdiv, ih (i+1) j]
      have : i + 1 + j = i + (j + 1) := by omega
      rw [this]
      by_cases hj : j < n <;> simp [hj, Nat.succ_lt_succ_iff]

theorem Grid.ofFun_wf (dx dy dz : Nat) (f : Nat → Nat → Nat → Bool) :
    (Grid.ofFun dx dy dz f).WF :=
  bitsFrom_lt _ _ _

/-- Index decomposition for in-range coordinates. -/
theorem index_lt {dx dy dz x y z : Nat} (hx : x < dx) (hy : y < dy) (hz : z < dz) :
    (x * dy + y) * dz + z < dx * dy * dz := by
  have h1 : (x * dy + y) * dz + z < (x * dy + y + 1) * dz := by
    have : z < dz := hz
    nlinarith
  have h2 : x * dy + y + 1 ≤ dx * dy := by nlinarith
  calc (x * dy + y) * dz + z < (x * dy + y + 1) * dz := h1
    _ ≤ dx * dy * dz := Nat.mul_le_mul_right dz h2

theorem index_div_mod {dy dz x y z : Nat} (hy : y < dy) (hz : z < dz) :
    ((x * dy + y) * dz + z) / dz / dy = x ∧
    ((x * dy + y) * dz + z) / dz % dy = y ∧
    ((x * dy + y) * dz + z) % dz = z := by
  have hdz : 0 < dz := by omega
  have hdy : 0 < dy := by omega
  have h1 : (x * dy + y) * dz + z = z + (x * dy + y) * dz := by omega
  have h2 : x * dy + y = y + x * dy := by omega
  have hdiv : ((x * dy + y) * dz + z) / dz = x * dy + y := by
    rw [h1, Nat.add_mul_div_right _ _ hdz, Nat.div_eq_of_lt hz, Nat.zero_add]
  refine ⟨?_, ?_, ?_⟩
  · rw [hdiv, h2, Nat.add_mul_div_right _ _ hdy, Nat.div_eq_of_lt hy, Nat.zero_add]
  · rw [hdiv, h2, Nat.add_mul_mod_self_right, Nat.mod_eq_of_lt hy]
  · rw [h1, Nat.add_mul_mod_self_right, Nat.mod_eq_of_lt hz]

theorem Grid.get_ofFun (dx dy dz : Nat) (f : Nat → Nat → Nat → Bool) (x y z : Nat) :
    (Grid.ofFun dx dy dz f).get x y z =
      if x < dx ∧ y < dy ∧ z < dz then f x y z else false := by
  simp only [Grid.get, Grid.ofFun]
  by_cases hx : x < dx
  · by_cases hy : y < dy
    · by_cases hz : z < dz
      · obtain ⟨h1, h2, h3⟩ := index_div_mod (x := x) hy hz
        simp [hx, hy, hz, testBit_bitsFrom, index_lt hx hy hz, h1, h2, h3]
      · simp [hx, hy, hz]
    · simp [hx, hy]
  · simp [hx]

theorem Grid.testBit_eq_get {g : Grid} (hw : g.WF) (i : Nat) (hi : i < g.size) :
    Nat.testBit g.cells i = g.get (i / g.dz / g.dy) (i / g.dz % g.dy) (i % g.dz) := by
  have hdz : 0 < g.dz := by
    rcases Nat.eq_zero_or_pos g.dz with h | h
    · exfalso; simp [Grid.size, h] at hi
    · exact h
  have hdy : 0 < g.dy := by
    rcases Nat.eq_zero_or_pos g.dy with h | h
    · exfalso; simp [Grid.size, h] at hi
    · exact h
  have hz : i % g.dz < g.dz := Nat.mod_lt _ hdz
  have hy : i / g.dz % g.dy < g.dy := Nat.mod_lt _ hdy
  have hx : i / g.dz / g.dy < g.dx := by
    have h1 : i / g.dz < g.dx * g.dy := by
      apply Nat.div_lt_of_lt_mul
      have : g.dx * g.dy * g.dz = g.dx * g.dy * g.dz := rfl
      simpa [Grid.size, Nat.mul_comm, Nat.mul_assoc, Nat.mul_left_comm] using hi
    apply Nat.div_lt_of_lt_mul
    simpa [Nat.mul_comm] using h1
  have hidx : (i / g.dz / g.dy * g.dy + i / g.dz % g.dy) * g.dz + i % g.dz = i := by
    have e1 : i / g.dz / g.dy * g.dy + i / g.dz % g.dy = i / g.dz := by
      rw [Nat.mul_comm]; exact Nat.div_add_mod _ _
    have e2 : i / g.dz * g.dz + i % g.dz = i := by
      rw [Nat.mul_comm]; exact Nat.div_add_mod _ _
    rw [e1, e2]
  simp [Grid.get, hx, hy, hz, hidx]

theorem Grid.ext_of_get {g h : Grid} (hgw : g.WF) (hhw : h.WF)
    (hdx : g.dx = h.dx) (hdy : g.dy = h.dy) (hdz : g.dz = h.dz)
    (hget : ∀ x y z, g.get x y z = h.get x y z) : g = h := by
  have hsize : g.size = h.size := by simp [Grid.size, hdx, hdy, hdz]
  have hcells : g.cells = h.cells := by
    apply Nat.eq_of_testBit_eq
    intro i
    by_cases hi : i < g.size
    · rw [Grid.testBit_eq_get hgw i hi, Grid.testBit_eq_get hhw i (hsize ▸ hi)]
      rw [hdy, hdz]; exact hget _ _ _
    · have h1 : Nat.testBit g.cells i = false := by
        apply Nat.testBit_lt_two_pow
        exact lt_of_lt_of_le hgw (Nat.pow_le_pow_right (by norm_num) (by omega))
      have h2 : Nat.testBit h.cells i = false := by
        apply Nat.testBit_lt_two_pow
        exact lt_of_lt_of_le hhw (Nat.pow_le_pow_right (by norm_num) (by omega))
      rw [h1, h2]
  cases g; cases h
  simp_all

theorem Grid.ofFun_get_self {g : Grid} (hw : g.WF) :
    Grid.ofFun g.dx g.dy g.dz g.get = g := by
  apply Grid.ext_of_get (Grid.ofFun_wf _ _ _ _) hw rfl rfl rfl
  intro x y z
  rw [Grid.get_ofFun]
  by_cases hx : x < g.dx
  · by_cases hy : y < g.dy
    · by_cases hz : z < g.dz
      · simp [hx, hy, hz]
      · simp [Grid.get, hx, hy, hz]
    · simp [Grid.get, hx, hy]
  · simp [Grid.get, hx]

/- ### The source functions of `cubes.py` -/

/-- `np.rot90(m, 1, axes=(1,2))`: one quarter turn in the plane of axes 1 and 2
(i.e. about axis 0).  `result[x,i,j] = m[x, j, dz-1-i]`, new shape `(dx, dz, dy)`. -/
def rot12 (g : Grid) : Grid :=
  Grid.ofFun g.dx g.dz g.dy (fun x i j => g.get x j (g.dz - 1 - i))

/-- `np.rot90(m, 1, axes=(0,2))`: `result[i,y,j] = m[j, y, dz-1-i]`,
new shape `(dz, dy, dx)`. -/
def rot02 (g : Grid) : Grid :=
  Grid.ofFun g.dz g.dy g.dx (fun i y j => g.get j y (g.dz - 1 - i))

/-- `np.rot90(m, 1, axes=(0,1))`: `result[i,j,z] = m[j, dy-1-i, z]`,
new shape `(dy, dx, dz)`. -/
def rot01 (g : Grid) : Grid :=
  Grid.ofFun g.dy g.dx g.dz (fun i j z => g.get j (g.dy - 1 - i) z)

/-- The inner generator of `all_rotations`: the four rotations
`np.rot90(polycube, i, axes)` for `i = 0,1,2,3` in one fixed plane. -/
def single_axis_rotation (r : Grid → Grid) (g : Grid) : List Grid :=
  [g, r g, r (r g), r (r (r g))]

/-- `all_rotations(polycube)`: the 24 rotations, in the order the Python
generator yields them (`np.rot90(p, -1, ax)` is the same array as three
quarter turns). -/
def all_rotations (g : Grid) : List Grid :=
  single_axis_rotation rot12 g ++
  single_axis_rotation rot12 (rot02 (rot02 g)) ++
  single_axis_rotation rot01 (rot02 g) ++
  single_axis_rotation rot01 (rot02 (rot02 (rot02 g))) ++
  single_axis_rotation rot02 (rot01 g) ++
  single_axis_rotation rot02 (rot01 (rot01 (rot01 g)))

/-- Is the slice `x = 0` entirely zero (`np.all(cube[0]==0)` after sending
axis `i` to the front)? -/
def sliceZeroFirst (g : Grid) : Bool :=
  (List.range g.dy).all fun y => (List.range g.dz).all fun z => !(g.get 0 y z)

/-- Is the slice `x = dx-1` entirely zero (`np.all(cube[-1]==0)`)? -/
def sliceZeroLast (g : Grid) : Bool :=
  (List.range g.dy).all fun y => (List.range g.dz).all fun z => !(g.get (g.dx - 1) y z)

/-- `cube[1:]`: drop the first slice along axis 0. -/
def dropFirst (g : Grid) : Grid :=
  Grid.ofFun (g.dx - 1) g.dy g.dz (fun x y z => g.get (x + 1) y z)

/-- `cube[:-1]`: drop the last slice along axis 0. -/
def dropLast (g : Grid) : Grid :=
  Grid.ofFun (g.dx - 1) g.dy g.dz (fun x y z => g.get x y z)

/-- The `while np.all(cube[0]==0): cube = cube[1:]` loop.  The fuel is the
number of slices; on an all-zero grid Python would raise an `IndexError`
once the array is empty, the model instead stops at the empty grid (callers
guarantee at least one occupied cell, where both agree). -/
def trimFrontAux : Nat → Grid → Grid
  | 0, g => g
  | n+1, g => if 0 < g.dx && sliceZeroFirst g then trimFrontAux n (dropFirst g) else g

def trimFront (g : Grid) : Grid := trimFrontAux g.dx g

/-- The `while np.all(cube[-1]==0): cube = cube[:-1]` loop. -/
def trimBackAux : Nat → Grid → Grid
  | 0, g => g
  | n+1, g => if 0 < g.dx && sliceZeroLast g then trimBackAux n (dropLast g) else g

def trimBack (g : Grid) : Grid := trimBackAux g.dx g

/-- `np.swapaxes(cube, 0, 1)`. -/
def swap01 (g : Grid) : Grid :=
  Grid.ofFun g.dy g.dx g.dz (fun x y z => g.get y x z)

/-- `np.swapaxes(cube, 0, 2)`. -/
def swap02 (g : Grid) : Grid :=
  Grid.ofFun g.dz g.dy g.dx (fun x y z => g.get z y x)

/-- `crop_cube(cube)`: for each axis in turn, send it to the front, strip
leading then trailing all-zero slices, and send it back. -/
def crop_cube (g : Grid) : Grid :=
  let g1 := trimBack (trimFront g)
  let g2 := swap01 (trimBack (trimFront (swap01 g1)))
  swap02 (trimBack (trimFront (swap02 g2)))

/-- `np.pad(cube, 1, 'constant', constant_values=0)`. -/
def pad (g : Grid) : Grid :=
  Grid.ofFun (g.dx + 2) (g.dy + 2) (g.dz + 2) (fun x y z =>
    decide (1 ≤ x) && decide (1 ≤ y) && decide (1 ≤ z) &&
      g.get (x - 1) (y - 1) (z - 1))

/-- Does the cell have an occupied face-neighbour?  This is exactly the
cell being set by one of the six shifted assignments
`output_cube[xs±1, ys, zs] = 1` etc. of `expand_cube` (in a padded grid no
shift wraps around). -/
def hasOccNeighbor (c : Grid) (x y z : Nat) : Bool :=
  c.get (x + 1) y z || (decide (1 ≤ x) && c.get (x - 1) y z) ||
  c.get x (y + 1) z || (decide (1 ≤ y) && c.get x (y - 1) z) ||
  c.get x y (z + 1) || (decide (1 ≤ z) && c.get x y (z - 1))

/-- `(output_cube ^ cube).nonzero()` zipped: the coordinates, in row-major
(C) order, of the empty cells of `c` having an occupied neighbour. -/
def frontier (c : Grid) : List (Nat × Nat × Nat) :=
  (List.range c.dx).flatMap fun x =>
    (List.range c.dy).flatMap fun y =>
      (List.range c.dz).filterMap fun z =>
        if !c.get x y z && hasOccNeighbor c x y z then some (x, y, z) else none

/-- `new_cube = np.array(cube); new_cube[x,y,z] = 1`. -/
def setCell (g : Grid) (x y z : Nat) : Grid :=
  Grid.ofFun g.dx g.dy g.dz (fun a b c =>
    g.get a b c || (a == x && b == y && c == z))

/-- `expand_cube(cube)`: pad, compute the frontier, and yield the cropped
grid obtained by filling each frontier cell in turn. -/
def expand_cube (g : Grid) : List Grid :=
  let c := pad g
  (frontier c).map fun p => crop_cube (setCell c p.1 p.2.1 p.2.2)

/-- `polycube.flat`: the row-major flat {0,1} sequence, as Booleans. -/
def flatList (g : Grid) : List Bool :=
  (List.range g.size).map (Nat.testBit g.cells)

/-- The run-length loop of `rle` after the first element fixed
`current = c, val = v`: each maximal run of equal values becomes its
length, positive for ones and negative for zeros; the final run is
appended after the loop. -/
def runsAux : Bool → Nat → List Bool → List Int
  | c, v, [] => [if c then (v : Int) else -(v : Int)]
  | c, v, x :: xs =>
    if c == x then runsAux c (v + 1) xs
    else (if c then (v : Int) else -(v : Int)) :: runsAux x 1 xs

/-- `rle(polycube)`: the three dimensions followed by the signed run
lengths of the flattened grid.  (On an empty flat sequence the Python
loop never runs and the trailing `r.append` pushes `-0 = 0`.) -/
def rle (g : Grid) : List Int :=
  [(g.dx : Int), (g.dy : Int), (g.dz : Int)] ++
    match flatList g with
    | [] => [(0 : Int)]
    | x :: xs => runsAux x 1 xs

/-- `cube_exists_rle(polycube, polycubes_rle)`: does the fingerprint of some
rotation of the candidate occur in the dedup set?  The Python set of tuples
is modelled as the list of its elements. -/
def cube_exists_rle (g : Grid) (s : List (List Int)) : Bool :=
  (all_rotations g).any fun r => s.contains (rle r)

/-- One inner-loop step of `generate_polycubes`: the accumulator holds the
`polycubes` list and the `polycubes_rle` set; a new candidate is kept only
if no rotation of it is already known. -/
def genStep (acc : List Grid × List (List Int)) (nc : Grid) :
    List Grid × List (List Int) :=
  if cube_exists_rle nc acc.2 then acc else (acc.1 ++ [nc], acc.2 ++ [rle nc])

/-- One level of `generate_polycubes`: expand every base polycube and keep
the new ones, in discovery order. -/
def genLevel (base : List Grid) : List Grid :=
  (base.foldl (fun acc c => (expand_cube c).foldl genStep acc) ([], [])).1

/-- `generate_polycubes(n, use_cache=False)` for `n ≥ 0`:
`n = 1` gives `np.ones((1,1,1))`, `n = 2` gives `np.ones((2,1,1))`, and
each later level is built from the previous one. -/
def genCubes : Nat → List Grid
  | 0 => []
  | 1 => [⟨1, 1, 1, 1⟩]
  | 2 => [⟨2, 1, 1, 3⟩]
  | n+3 => genLevel (genCubes (n + 2))

/-- `generate_polycubes(n, use_cache=False)`; `n` is the Python `int`
argument, and `if n < 1: return []`. -/
def generate_polycubes (n : Int) : List Grid :=
  if n < 1 then [] else genCubes n.toNat

/- ### The rotation group of the cube acting on grids

A signed permutation of the three axes: output axis `i` takes its extent
from input axis `p i`, and `s i` tells whether that axis is traversed
backwards.  The proper rotations of the cube are exactly the signed
permutations of determinant `+1`. -/

structure SP where
  p : Equiv.Perm (Fin 3)
  s : Fin 3 → Bool

instance : DecidableEq SP := fun a b =>
  decidable_of_iff (a.p = b.p ∧ a.s = b.s) (by cases a; cases b; simp)

/-- Index a coordinate triple by an axis. -/
def pick3 (x0 x1 x2 : Nat) : Fin 3 → Nat
  | 0 => x0
  | 1 => x1
  | 2 => x2

/-- Reflect a coordinate inside an extent, or not. -/
def flipc (s : Bool) (d x : Nat) : Nat := if s then d - 1 - x else x

/-- The input coordinates read by a signed permutation at given output
coordinates. -/
def coordv (e : SP) (g : Grid) (x : Fin 3 → Nat) : Fin 3 → Nat :=
  fun j => flipc (e.s (e.p.symm j)) (g.dim j) (x (e.p.symm j))

/-- The action of a signed permutation on a grid. -/
def rotE (e : SP) (g : Grid) : Grid :=
  Grid.ofFun (g.dim (e.p 0)) (g.dim (e.p 1)) (g.dim (e.p 2)) (fun x0 x1 x2 =>
    g.get (coordv e g (pick3 x0 x1 x2) 0) (coordv e g (pick3 x0 x1 x2) 1)
      (coordv e g (pick3 x0 x1 x2) 2))

def spId : SP := ⟨Equiv.refl _, fun _ => false⟩

def sp12 : SP := ⟨Equiv.swap 1 2, ![false, true, false]⟩

def sp02 : SP := ⟨Equiv.swap 0 2, ![true, false, false]⟩

def sp01 : SP := ⟨Equiv.swap 0 1, ![true, false, false]⟩

/-- Composition: `rotE (spComp f e) g = rotE f (rotE e g)`. -/
def spComp (f e : SP) : SP :=
  ⟨f.p.trans e.p, fun j => xor (e.s (f.p j)) (f.s j)⟩

/-- A signed permutation is a proper rotation when its determinant,
the sign of the permutation times the product of the reflection signs,
is `+1`. -/
def IsProper (e : SP) : Prop :=
  Equiv.Perm.sign e.p * (if e.s 0 then -1 else 1) * (if e.s 1 then -1 else 1) *
    (if e.s 2 then -1 else 1) = 1

instance (e : SP) : Decidable (IsProper e) := by unfold IsProper; infer_instance

def spEquivProd : SP ≃ Equiv.Perm (Fin 3) × (Fin 3 → Bool) where
  toFun e := (e.p, e.s)
  invFun q := ⟨q.1, q.2⟩
  left_inv := fun e => rfl
  right_inv := fun q => rfl

instance : Fintype SP := Fintype.ofEquiv _ spEquivProd.symm

/-- The four elements of one block of `all_rotations`: a base orientation
followed by one, two and three quarter turns in a fixed plane. -/
def blockElems (r e0 : SP) : List SP :=
  [e0, spComp r e0, spComp r (spComp r e0), spComp r (spComp r (spComp r e0))]

/-- The 24 group elements in the order `all_rotations` realizes them. -/
def rotElems : List SP :=
  blockElems sp12 spId ++
  blockElems sp12 (spComp sp02 sp02) ++
  blockElems sp01 sp02 ++
  blockElems sp01 (spComp sp02 (spComp sp02 sp02)) ++
  blockElems sp02 sp01 ++
  blockElems sp02 (spComp sp01 (spComp sp01 sp01))

/- ### Basic lemmas about the action -/

theorem pick3_eta (v : Fin 3 → Nat) (j : Fin 3) : pick3 (v 0) (v 1) (v 2) j = v j := by
  fin_cases j <;> rfl

theorem rotE_dim (e : SP) (g : Grid) (j : Fin 3) : (rotE e g).dim j = g.dim (e.p j) := by
  fin_cases j <;> rfl

theorem rotE_wf (e : SP) (g : Grid) : (rotE e g).WF := Grid.ofFun_wf _ _ _ _

theorem rot12_eq_rotE (g : Grid) : rot12 g = rotE sp12 g := by
  show Grid.ofFun _ _ _ _ = Grid.ofFun _ _ _ _
  rfl

theorem rot02_eq_rotE (g : Grid) : rot02 g = rotE sp02 g := by
  show Grid.ofFun _ _ _ _ = Grid.ofFun _ _ _ _
  rfl

theorem rot01_eq_rotE (g : Grid) : rot01 g = rotE sp01 g := by
  show Grid.ofFun _ _ _ _ = Grid.ofFun _ _ _ _
  rfl

theorem rotE_id {g : Grid} (hw : g.WF) : rotE spId g = g := by
  have h : rotE spId g = Grid.ofFun g.dx g.dy g.dz g.get := rfl
  rw [h, Grid.ofFun_get_self hw]

/-- Congruence for `ofFun` on in-range coordinates. -/
theorem Grid.ofFun_congr {a b c : Nat} {f f' : Nat → Nat → Nat → Bool}
    (h : ∀ x y z, x < a → y < b → z < c → f x y z = f' x y z) :
    Grid.ofFun a b c f = Grid.ofFun a b c f' := by
  apply Grid.ext_of_get (Grid.ofFun_wf a b c f) (Grid.ofFun_wf a b c f') rfl rfl rfl
  intro x y z
  rw [Grid.get_ofFun, Grid.get_ofFun]
  by_cases hx : x < a ∧ y < b ∧ z < c
  · simp [hx, h x y z hx.1 hx.2.1 hx.2.2]
  · simp [hx]

theorem flipc_lt {s : Bool} {d x : Nat} (h : x < d) : flipc s d x < d := by
  cases s <;> simp [flipc] <;> omega

theorem flipc_flipc {s1 s2 : Bool} {d x : Nat} (h : x < d) :
    flipc s1 d (flipc s2 d x) = flipc (xor s1 s2) d x := by
  cases s1 <;> cases s2 <;> simp [flipc] <;> omega

theorem coordv_congr (e : SP) (g : Grid) {x x' : Fin 3 → Nat}
    (h : ∀ j, x j = x' j) (k : Fin 3) : coordv e g x k = coordv e g x' k := by
  simp [coordv, h]

theorem get_rotE (e : SP) (g : Grid) (x y z : Nat) :
    (rotE e g).get x y z =
      if x < g.dim (e.p 0) ∧ y < g.dim (e.p 1) ∧ z < g.dim (e.p 2) then
        g.get (coordv e g (pick3 x y z) 0) (coordv e g (pick3 x y z) 1)
          (coordv e g (pick3 x y z) 2)
      else false :=
  Grid.get_ofFun _ _ _ _ _ _ _

theorem rotE_comp (f e : SP) (g : Grid) : rotE f (rotE e g) = rotE (spComp f e) g := by
  have hdim : ∀ j : Fin 3, (rotE e g).dim (f.p j) = g.dim ((spComp f e).p j) := by
    intro j; rw [rotE_dim]; rfl
  apply Grid.ext_of_get (rotE_wf _ _) (rotE_wf _ _) (hdim 0) (hdim 1) (hdim 2)
  intro x y z
  rw [get_rotE, get_rotE, hdim 0, hdim 1, hdim 2]
  by_cases hr : x < g.dim ((spComp f e).p 0) ∧ y < g.dim ((spComp f e).p 1) ∧
      z < g.dim ((spComp f e).p 2)
  · simp only [hr, if_true]
    have hx : ∀ j : Fin 3, pick3 x y z j < g.dim ((spComp f e).p j) := by
      intro j; fin_cases j
      · exact hr.1
      · exact hr.2.1
      · exact hr.2.2
    have hcfb : ∀ j : Fin 3, coordv f (rotE e g) (pick3 x y z) j < g.dim (e.p j) := by
      intro j
      have hd : (rotE e g).dim j = g.dim (e.p j) := rotE_dim e g j
      rw [show coordv f (rotE e g) (pick3 x y z) j =
          flipc (f.s (f.p.symm j)) ((rotE e g).dim j) (pick3 x y z (f.p.symm j)) from rfl]
      rw [hd]
      apply flipc_lt
      have h1 := hx (f.p.symm j)
      have h2 : (spComp f e).p (f.p.symm j) = e.p j := by
        show e.p (f.p (f.p.symm j)) = e.p j
        rw [Equiv.apply_symm_apply]
      rwa [h2] at h1
    rw [get_rotE]
    simp only [hcfb 0, hcfb 1, hcfb 2, and_self, if_true]
    have hkey : ∀ k : Fin 3,
        coordv e g (pick3 (coordv f (rotE e g) (pick3 x y z) 0)
          (coordv f (rotE e g) (pick3 x y z) 1)
          (coordv f (rotE e g) (pick3 x y z) 2)) k =
        coordv (spComp f e) g (pick3 x y z) k := by
      intro k
      rw [coordv_congr e g (fun j => pick3_eta (coordv f (rotE e g) (pick3 x y z)) j) k]
      show flipc (e.s (e.p.symm k)) (g.dim k)
          (coordv f (rotE e g) (pick3 x y z) (e.p.symm k)) = _
      have hd : (rotE e g).dim (e.p.symm k) = g.dim k := by
        rw [rotE_dim, Equiv.apply_symm_apply]
      have hv : pick3 x y z (f.p.symm (e.p.symm k)) < g.dim k := by
        have h1 := hx (f.p.symm (e.p.symm k))
        have h2 : (spComp f e).p (f.p.symm (e.p.symm k)) = k := by
          show e.p (f.p (f.p.symm (e.p.symm k))) = k
          rw [Equiv.apply_symm_apply, Equiv.apply_symm_apply]
        rwa [h2] at h1
      rw [show coordv f (rotE e g) (pick3 x y z) (e.p.symm k) =
          flipc (f.s (f.p.symm (e.p.symm k))) ((rotE e g).dim (e.p.symm k))
            (pick3 x y z (f.p.symm (e.p.symm k))) from rfl]
      rw [hd, flipc_flipc hv]
      show _ = flipc ((spComp f e).s ((spComp f e).p.symm k)) (g.dim k)
          (pick3 x y z ((spComp f e).p.symm k))
      have hτ : (spComp f e).p.symm k = f.p.symm (e.p.symm k) := by
        show (f.p.trans e.p).symm k = _
        rw [Equiv.symm_trans_apply]
      have hs : (spComp f e).s ((spComp f e).p.symm k) =
          xor (e.s (e.p.symm k)) (f.s (f.p.symm (e.p.symm k))) := by
        rw [hτ]
        show xor (e.s (f.p (f.p.symm (e.p.symm k)))) (f.s (f.p.symm (e.p.symm k))) = _
        rw [Equiv.apply_symm_apply]
      rw [hs, hτ]
    rw [hkey 0, hkey 1, hkey 2, if_pos hr]
  · simp only [hr, if_false]
    rw [get_rotE, if_neg hr]

/- ### The 24 elements: finite facts by `decide` -/

theorem rotElems_length : rotElems.length = 24 := rfl

theorem rotElems_nodup : rotElems.Nodup := by decide

theorem rotElems_iff_proper : ∀ e : SP, e ∈ rotElems ↔ IsProper e := by decide

theorem rotElems_id_mem : spId ∈ rotElems := by decide

theorem rotElems_inv : ∀ e ∈ rotElems, ∃ f ∈ rotElems,
    spComp f e = spId ∧ spComp e f = spId := by decide

theorem rotElems_transfer : ∀ e ∈ rotElems, ∀ h ∈ rotElems,
    ∃ f ∈ rotElems, spComp f e = h := by decide

theorem spComp_id (e : SP) : spComp e spId = e := by
  cases e with
  | mk p s =>
    show SP.mk (p.trans (Equiv.refl _)) (fun j => xor (spId.s (p j)) (s j)) = SP.mk p s
    have h1 : p.trans (Equiv.refl _) = p := Equiv.trans_refl p
    have h2 : (fun j => xor (spId.s (p j)) (s j)) = s := by
      funext j
      show xor false (s j) = s j
      exact Bool.false_xor _
    rw [h1, h2]

/-- `all_rotations` realizes exactly the 24 elements of `rotElems`, in order. -/
theorem all_rotations_eq_map {g : Grid} (hw : g.WF) :
    all_rotations g = rotElems.map (fun e => rotE e g) := by
  simp only [all_rotations, single_axis_rotation, rotElems, blockElems,
    List.map_append, List.map_cons, List.map_nil, List.append_assoc,
    List.cons_append, List.nil_append, spComp_id]
  simp only [rot12_eq_rotE, rot01_eq_rotE, rot02_eq_rotE, rotE_comp, rotE_id hw]

/- ### Occupancy, tightness and translation windows -/

/-- The grid has at least one occupied cell. -/
def HasOcc (g : Grid) : Prop := ∃ x y z, g.get x y z = true

/-- The occupied cells, as a finite set of coordinate triples. -/
def occSet (g : Grid) : Finset (Nat × Nat × Nat) :=
  ((Finset.range g.dx) ×ˢ (Finset.range g.dy) ×ˢ (Finset.range g.dz)).filter
    (fun p => g.get p.1 p.2.1 p.2.2 = true)

/-- The number of occupied cells (`np.count_nonzero`). -/
def countOcc (g : Grid) : Nat := (occSet g).card

/-- Bounding-box tightness: no boundary slice along any of the three axes is
entirely zero. -/
def noZeroBoundary (g : Grid) : Bool :=
  !sliceZeroFirst g && !sliceZeroLast g &&
  !sliceZeroFirst (swap01 g) && !sliceZeroLast (swap01 g) &&
  !sliceZeroFirst (swap02 g) && !sliceZeroLast (swap02 g)

theorem Grid.get_eq_false {g : Grid} {x y z : Nat}
    (h : ¬ (x < g.dx ∧ y < g.dy ∧ z < g.dz)) : g.get x y z = false := by
  by_cases hx : x < g.dx
  · by_cases hy : y < g.dy
    · by_cases hz : z < g.dz
      · exact absurd ⟨hx, hy, hz⟩ h
      · simp [Grid.get, hz]
    · simp [Grid.get, hy]
  · simp [Grid.get, hx]

theorem Grid.get_bounds {g : Grid} {x y z : Nat} (h : g.get x y z = true) :
    x < g.dx ∧ y < g.dy ∧ z < g.dz := by
  by_contra hc
  rw [Grid.get_eq_false hc] at h
  exact Bool.false_ne_true h

theorem get_swap01 (g : Grid) (x y z : Nat) : (swap01 g).get x y z = g.get y x z := by
  rw [swap01, Grid.get_ofFun]
  by_cases h : x < g.dy ∧ y < g.dx ∧ z < g.dz
  · rw [if_pos h]
  · rw [if_neg h]
    exact (Grid.get_eq_false (fun hc => h ⟨hc.2.1, hc.1, hc.2.2⟩)).symm

theorem get_swap02 (g : Grid) (x y z : Nat) : (swap02 g).get x y z = g.get z y x := by
  rw [swap02, Grid.get_ofFun]
  by_cases h : x < g.dz ∧ y < g.dy ∧ z < g.dx
  · rw [if_pos h]
  · rw [if_neg h]
    exact (Grid.get_eq_false (fun hc => h ⟨hc.2.2, hc.2.1, hc.1⟩)).symm

theorem swap01_wf (g : Grid) : (swap01 g).WF := Grid.ofFun_wf _ _ _ _

theorem swap02_wf (g : Grid) : (swap02 g).WF := Grid.ofFun_wf _ _ _ _

theorem swap01_swap01 {g : Grid} (hw : g.WF) : swap01 (swap01 g) = g := by
  apply Grid.ext_of_get (swap01_wf (swap01 g)) hw rfl rfl rfl
  intro x y z
  rw [get_swap01, get_swap01]

theorem swap02_swap02 {g : Grid} (hw : g.WF) : swap02 (swap02 g) = g := by
  apply Grid.ext_of_get (swap02_wf (swap02 g)) hw rfl rfl rfl
  intro x y z
  rw [get_swap02, get_swap02]

theorem sliceZeroFirst_iff {g : Grid} :
    sliceZeroFirst g = true ↔ ∀ y z, g.get 0 y z = false := by
  constructor
  · intro h y z
    by_cases hy : y < g.dy
    · by_cases hz : z < g.dz
      · simp only [sliceZeroFirst, List.all_eq_true] at h
        have := h y (List.mem_range.mpr hy) z (List.mem_range.mpr hz)
        simpa using this
      · exact Grid.get_eq_false (fun hc => hz hc.2.2)
    · exact Grid.get_eq_false (fun hc => hy hc.2.1)
  · intro h
    simp only [sliceZeroFirst, List.all_eq_true]
    intro y _ z _
    simp [h y z]

theorem sliceZeroLast_iff {g : Grid} :
    sliceZeroLast g = true ↔ ∀ y z, g.get (g.dx - 1) y z = false := by
  constructor
  · intro h y z
    by_cases hy : y < g.dy
    · by_cases hz : z < g.dz
      · simp only [sliceZeroLast, List.all_eq_true] at h
        have := h y (List.mem_range.mpr hy) z (List.mem_range.mpr hz)
        simpa using this
      · exact Grid.get_eq_false (fun hc => hz hc.2.2)
    · exact Grid.get_eq_false (fun hc => hy hc.2.1)
  · intro h
    simp only [sliceZeroLast, List.all_eq_true]
    intro y _ z _
    simp [h y z]

theorem sliceZeroFirst_false_iff {g : Grid} :
    sliceZeroFirst g = false ↔ ∃ y z, g.get 0 y z = true := by
  constructor
  · intro h
    by_contra hc
    push_neg at hc
    have hall : ∀ y z, g.get 0 y z = false := by
      intro y z
      cases hgz : g.get 0 y z
      · rfl
      · exact absurd hgz (hc y z)
    have := sliceZeroFirst_iff.mpr hall
    rw [this] at h
    exact absurd h (by decide)
  · rintro ⟨y, z, hyz⟩
    cases hsf : sliceZeroFirst g
    · rfl
    · rw [sliceZeroFirst_iff.mp hsf y z] at hyz
      exact absurd hyz (by simp)

theorem sliceZeroLast_false_iff {g : Grid} :
    sliceZeroLast g = false ↔ ∃ y z, g.get (g.dx - 1) y z = true := by
  constructor
  · intro h
    by_contra hc
    push_neg at hc
    have hall : ∀ y z, g.get (g.dx - 1) y z = false := by
      intro y z
      cases hgz : g.get (g.dx - 1) y z
      · rfl
      · exact absurd hgz (hc y z)
    have := sliceZeroLast_iff.mpr hall
    rw [this] at h
    exact absurd h (by decide)
  · rintro ⟨y, z, hyz⟩
    cases hsf : sliceZeroLast g
    · rfl
    · rw [sliceZeroLast_iff.mp hsf y z] at hyz
      exact absurd hyz (by simp)

/-- `s` sits inside `g` as the sub-box at offset `(a, b, c)`: cells agree
under the translation and every occupied cell of `g` lies inside the box. -/
structure Window (s g : Grid) (a b c : Nat) : Prop where
  wx : s.dx + a ≤ g.dx
  wy : s.dy + b ≤ g.dy
  wz : s.dz + c ≤ g.dz
  get_eq : ∀ x y z, x < s.dx → y < s.dy → z < s.dz →
    s.get x y z = g.get (x + a) (y + b) (z + c)
  occ : ∀ x y z, g.get x y z = true →
    a ≤ x ∧ x < a + s.dx ∧ b ≤ y ∧ y < b + s.dy ∧ c ≤ z ∧ z < c + s.dz

theorem Window.occ_get {s g : Grid} {a b c : Nat} (w : Window s g a b c)
    {x y z : Nat} (h : g.get x y z = true) : s.get (x - a) (y - b) (z - c) = true := by
  obtain ⟨h1, h2, h3, h4, h5, h6⟩ := w.occ x y z h
  have e1 : x - a + a = x := by omega
  have e2 : y - b + b = y := by omega
  have e3 : z - c + c = z := by omega
  rw [w.get_eq _ _ _ (by omega) (by omega) (by omega), e1, e2, e3]
  exact h

theorem Window.hasOcc {s g : Grid} {a b c : Nat} (w : Window s g a b c)
    (h : HasOcc g) : HasOcc s := by
  obtain ⟨x, y, z, hxyz⟩ := h
  exact ⟨x - a, y - b, z - c, w.occ_get hxyz⟩

theorem Window.rfl (g : Grid) : Window g g 0 0 0 := by
  refine ⟨by omega, by omega, by omega, ?_, ?_⟩
  · intro x y z _ _ _
    simp
  · intro x y z h
    obtain ⟨hx, hy, hz⟩ := Grid.get_bounds h
    omega

theorem Window.trans {s t g : Grid} {a b c a' b' c' : Nat}
    (w1 : Window s t a b c) (w2 : Window t g a' b' c') :
    Window s g (a + a') (b + b') (c + c') := by
  have k1 := w1.wx; have k2 := w1.wy; have k3 := w1.wz
  have k4 := w2.wx; have k5 := w2.wy; have k6 := w2.wz
  refine ⟨by omega, by omega, by omega, ?_, ?_⟩
  · intro x y z hx hy hz
    rw [w1.get_eq x y z hx hy hz,
      w2.get_eq _ _ _ (by omega) (by omega) (by omega)]
    have e1 : x + a + a' = x + (a + a') := by omega
    have e2 : y + b + b' = y + (b + b') := by omega
    have e3 : z + c + c' = z + (c + c') := by omega
    rw [e1, e2, e3]
  · intro x y z h
    have ho2 := w2.occ x y z h
    have hget := w2.get_eq (x - a') (y - b') (z - c') (by omega) (by omega) (by omega)
    have e1 : x - a' + a' = x := by omega
    have e2 : y - b' + b' = y := by omega
    have e3 : z - c' + c' = z := by omega
    rw [e1, e2, e3] at hget
    have ht : t.get (x - a') (y - b') (z - c') = true := by rw [hget]; exact h
    have ho1 := w1.occ _ _ _ ht
    omega

theorem Window.conj01 {s g : Grid} {a b c : Nat} (w : Window s g a b c) :
    Window (swap01 s) (swap01 g) b a c := by
  refine ⟨w.wy, w.wx, w.wz, ?_, ?_⟩
  · intro x y z hx hy hz
    rw [get_swap01, get_swap01]
    exact w.get_eq y x z hy hx hz
  · intro x y z h
    rw [get_swap01] at h
    obtain ⟨h1, h2, h3, h4, h5, h6⟩ := w.occ y x z h
    exact ⟨h3, h4, h1, h2, h5, h6⟩

theorem Window.conj02 {s g : Grid} {a b c : Nat} (w : Window s g a b c) :
    Window (swap02 s) (swap02 g) c b a := by
  refine ⟨w.wz, w.wy, w.wx, ?_, ?_⟩
  · intro x y z hx hy hz
    rw [get_swap02, get_swap02]
    exact w.get_eq z y x hz hy hx
  · intro x y z h
    rw [get_swap02] at h
    obtain ⟨h1, h2, h3, h4, h5, h6⟩ := w.occ z y x h
    exact ⟨h5, h6, h3, h4, h1, h2⟩

/- ### The trim loops of `crop_cube` -/

theorem window_dropFirst {g : Grid} (hdx : 0 < g.dx) (h0 : sliceZeroFirst g = true) :
    Window (dropFirst g) g 1 0 0 := by
  refine ⟨?_, ?_, ?_, ?_, ?_⟩
  · show g.dx - 1 + 1 ≤ g.dx
    omega
  · show g.dy + 0 ≤ g.dy
    omega
  · show g.dz + 0 ≤ g.dz
    omega
  · intro x y z hx hy hz
    have h : (dropFirst g).get x y z =
        if x < g.dx - 1 ∧ y < g.dy ∧ z < g.dz then g.get (x + 1) y z else false :=
      Grid.get_ofFun _ _ _ _ _ _ _
    rw [h, if_pos ⟨hx, hy, hz⟩]
    norm_num
  · intro x y z h
    obtain ⟨hx, hy, hz⟩ := Grid.get_bounds h
    have hx1 : 1 ≤ x := by
      by_contra hc
      have hx0 : x = 0 := by omega
      subst hx0
      rw [sliceZeroFirst_iff.mp h0 y z] at h
      exact Bool.false_ne_true h
    refine ⟨hx1, ?_, by omega, ?_, by omega, ?_⟩
    · show x < 1 + (g.dx - 1)
      omega
    · show y < 0 + g.dy
      omega
    · show z < 0 + g.dz
      omega

theorem window_dropLast {g : Grid} (hdx : 0 < g.dx) (h0 : sliceZeroLast g = true) :
    Window (dropLast g) g 0 0 0 := by
  refine ⟨?_, ?_, ?_, ?_, ?_⟩
  · show g.dx - 1 + 0 ≤ g.dx
    omega
  · show g.dy + 0 ≤ g.dy
    omega
  · show g.dz + 0 ≤ g.dz
    omega
  · intro x y z hx hy hz
    have h : (dropLast g).get x y z =
        if x < g.dx - 1 ∧ y < g.dy ∧ z < g.dz then g.get x y z else false :=
      Grid.get_ofFun _ _ _ _ _ _ _
    rw [h, if_pos ⟨hx, hy, hz⟩]
    norm_num
  · intro x y z h
    obtain ⟨hx, hy, hz⟩ := Grid.get_bounds h
    have hxl : x ≠ g.dx - 1 := by
      intro hc
      subst hc
      rw [sliceZeroLast_iff.mp h0 y z] at h
      exact Bool.false_ne_true h
    refine ⟨by omega, ?_, by omega, ?_, by omega, ?_⟩
    · show x < 0 + (g.dx - 1)
      omega
    · show y < 0 + g.dy
      omega
    · show z < 0 + g.dz
      omega

theorem trimFrontAux_dy : ∀ (n : Nat) (g : Grid), (trimFrontAux n g).dy = g.dy := by
  intro n
  induction n with
  | zero => intro g; rfl
  | succ n ih =>
    intro g
    simp only [trimFrontAux]
    split
    · exact (ih _).trans rfl
    · rfl

theorem trimFrontAux_dz : ∀ (n : Nat) (g : Grid), (trimFrontAux n g).dz = g.dz := by
  intro n
  induction n with
  | zero => intro g; rfl
  | succ n ih =>
    intro g
    simp only [trimFrontAux]
    split
    · exact (ih _).trans rfl
    · rfl

theorem trimBackAux_dy : ∀ (n : Nat) (g : Grid), (trimBackAux n g).dy = g.dy := by
  intro n
  induction n with
  | zero => intro g; rfl
  | succ n ih =>
    intro g
    simp only [trimBackAux]
    split
    · exact (ih _).trans rfl
    · rfl

theorem trimBackAux_dz : ∀ (n : Nat) (g : Grid), (trimBackAux n g).dz = g.dz := by
  intro n
  induction n with
  | zero => intro g; rfl
  | succ n ih =>
    intro g
    simp only [trimBackAux]
    split
    · exact (ih _).trans rfl
    · rfl

theorem trimFrontAux_wf : ∀ (n : Nat) (g : Grid), g.WF → (trimFrontAux n g).WF := by
  intro n
  induction n with
  | zero => intro g hw; exact hw
  | succ n ih =>
    intro g hw
    simp only [trimFrontAux]
    split
    · exact ih _ (Grid.ofFun_wf _ _ _ _)
    · exact hw

theorem trimBackAux_wf : ∀ (n : Nat) (g : Grid), g.WF → (trimBackAux n g).WF := by
  intro n
  induction n with
  | zero => intro g hw; exact hw
  | succ n ih =>
    intro g hw
    simp only [trimBackAux]
    split
    · exact ih _ (Grid.ofFun_wf _ _ _ _)
    · exact hw

theorem trimFrontAux_spec : ∀ (n : Nat) (g : Grid), g.dx ≤ n → HasOcc g →
    ∃ a, Window (trimFrontAux n g) g a 0 0 ∧
      sliceZeroFirst (trimFrontAux n g) = false := by
  intro n
  induction n with
  | zero =>
    intro g hn hocc
    obtain ⟨x, y, z, hxyz⟩ := hocc
    obtain ⟨hx, _, _⟩ := Grid.get_bounds hxyz
    omega
  | succ n ih =>
    intro g hn hocc
    simp only [trimFrontAux]
    split
    next hcond =>
      rw [Bool.and_eq_true, decide_eq_true_eq] at hcond
      obtain ⟨hdx, hsf⟩ := hcond
      have w1 : Window (dropFirst g) g 1 0 0 := window_dropFirst hdx hsf
      have hocc1 : HasOcc (dropFirst g) := w1.hasOcc hocc
      have hdn : (dropFirst g).dx ≤ n := by
        show g.dx - 1 ≤ n
        omega
      obtain ⟨a, w2, hsl⟩ := ih (dropFirst g) hdn hocc1
      exact ⟨a + 1, w2.trans w1, hsl⟩
    next hcond =>
      rw [Bool.and_eq_true, decide_eq_true_eq] at hcond
      push_neg at hcond
      have hdx : 0 < g.dx := by
        obtain ⟨x, y, z, hxyz⟩ := hocc
        obtain ⟨hx, _, _⟩ := Grid.get_bounds hxyz
        omega
      have hsf : sliceZeroFirst g = false := by
        cases h2 : sliceZeroFirst g
        · rfl
        · exact absurd h2 (hcond hdx)
      exact ⟨0, Window.rfl g, hsf⟩

theorem trimBackAux_spec : ∀ (n : Nat) (g : Grid), g.dx ≤ n → HasOcc g →
    Window (trimBackAux n g) g 0 0 0 ∧
      sliceZeroLast (trimBackAux n g) = false := by
  intro n
  induction n with
  | zero =>
    intro g hn hocc
    obtain ⟨x, y, z, hxyz⟩ := hocc
    obtain ⟨hx, _, _⟩ := Grid.get_bounds hxyz
    omega
  | succ n ih =>
    intro g hn hocc
    simp only [trimBackAux]
    split
    next hcond =>
      rw [Bool.and_eq_true, decide_eq_true_eq] at hcond
      obtain ⟨hdx, hsl⟩ := hcond
      have w1 : Window (dropLast g) g 0 0 0 := window_dropLast hdx hsl
      have hocc1 : HasOcc (dropLast g) := w1.hasOcc hocc
      have hdn : (dropLast g).dx ≤ n := by
        show g.dx - 1 ≤ n
        omega
      obtain ⟨w2, hsl2⟩ := ih (dropLast g) hdn hocc1
      exact ⟨w2.trans w1, hsl2⟩
    next hcond =>
      rw [Bool.and_eq_true, decide_eq_true_eq] at hcond
      push_neg at hcond
      have hdx : 0 < g.dx := by
        obtain ⟨x, y, z, hxyz⟩ := hocc
        obtain ⟨hx, _, _⟩ := Grid.get_bounds hxyz
        omega
      have hsl : sliceZeroLast g = false := by
        cases h2 : sliceZeroLast g
        · rfl
        · exact absurd h2 (hcond hdx)
      exact ⟨Window.rfl g, hsl⟩

theorem trimBoth_spec {g : Grid} (hocc : HasOcc g) :
    ∃ a, Window (trimBack (trimFront g)) g a 0 0 ∧
      sliceZeroFirst (trimBack (trimFront g)) = false ∧
      sliceZeroLast (trimBack (trimFront g)) = false := by
  obtain ⟨a, w1, hsf⟩ := trimFrontAux_spec g.dx g le_rfl hocc
  have hocc1 : HasOcc (trimFront g) := w1.hasOcc hocc
  obtain ⟨w2, hsl⟩ := trimBackAux_spec (trimFront g).dx (trimFront g) le_rfl hocc1
  refine ⟨a, ?_, ?_, hsl⟩
  · have h := w2.trans w1
    rwa [Nat.zero_add] at h
  · obtain ⟨y, z, hyz⟩ := sliceZeroFirst_false_iff.mp hsf
    exact sliceZeroFirst_false_iff.mpr ⟨y, z, w2.occ_get hyz⟩

theorem trimBoth_wf {g : Grid} (hw : g.WF) : (trimBack (trimFront g)).WF :=
  trimBackAux_wf _ _ (trimFrontAux_wf _ _ hw)

theorem trimBoth_dy (g : Grid) : (trimBack (trimFront g)).dy = g.dy := by
  rw [trimBack, trimBackAux_dy, trimFront, trimFrontAux_dy]

theorem trimBoth_dz (g : Grid) : (trimBack (trimFront g)).dz = g.dz := by
  rw [trimBack, trimBackAux_dz, trimFront, trimFrontAux_dz]

theorem crop_cube_window {g : Grid} (hw : g.WF) (hocc : HasOcc g) :
    ∃ a b c, Window (crop_cube g) g a b c ∧ noZeroBoundary (crop_cube g) = true := by
  obtain ⟨a1, w1, hf1, hl1⟩ := trimBoth_spec hocc
  set g1 := trimBack (trimFront g) with hg1def
  have hw1 : g1.WF := trimBoth_wf hw
  have hocc1 : HasOcc g1 := w1.hasOcc hocc
  have hocc1s : HasOcc (swap01 g1) := by
    obtain ⟨x, y, z, h⟩ := hocc1
    exact ⟨y, x, z, by rw [get_swap01]; exact h⟩
  obtain ⟨b1, w2, hf2, hl2⟩ := trimBoth_spec hocc1s
  set t2 := trimBack (trimFront (swap01 g1)) with ht2def
  have hwt2 : t2.WF := trimBoth_wf (swap01_wf g1)
  set g2 := swap01 t2 with hg2def
  have w2c : Window g2 g1 0 b1 0 := by
    have h := w2.conj01
    rwa [swap01_swap01 hw1] at h
  have hw2 : g2.WF := by rw [hg2def]; exact swap01_wf t2
  have hocc2 : HasOcc g2 := w2c.hasOcc hocc1
  have hocc2s : HasOcc (swap02 g2) := by
    obtain ⟨x, y, z, h⟩ := hocc2
    exact ⟨z, y, x, by rw [get_swap02]; exact h⟩
  obtain ⟨c1, w3, hf3, hl3⟩ := trimBoth_spec hocc2s
  set t3 := trimBack (trimFront (swap02 g2)) with ht3def
  have hwt3 : t3.WF := trimBoth_wf (swap02_wf g2)
  set g3 := swap02 t3 with hg3def
  have w3c : Window g3 g2 0 0 c1 := by
    have h := w3.conj02
    rwa [swap02_swap02 hw2] at h
  have hcrop : crop_cube g = g3 := by
    rw [hg3def, ht3def, hg2def, ht2def, hg1def]
    rfl
  have hdx32 : g3.dx = g2.dx := by
    rw [hg3def]
    show t3.dz = g2.dx
    rw [ht3def, trimBoth_dz]
    rfl
  have hdy32 : g3.dy = g2.dy := by
    rw [hg3def]
    show t3.dy = g2.dy
    rw [ht3def, trimBoth_dy]
    rfl
  have hdx21 : g2.dx = g1.dx := by
    rw [hg2def]
    show t2.dy = g1.dx
    rw [ht2def, trimBoth_dy]
    rfl
  have hsf3 : sliceZeroFirst g3 = false := by
    obtain ⟨y, z, hyz⟩ := sliceZeroFirst_false_iff.mp hf1
    have h2 := w2c.occ_get hyz
    have h3 := w3c.occ_get h2
    exact sliceZeroFirst_false_iff.mpr ⟨_, _, h3⟩
  have hsl3 : sliceZeroLast g3 = false := by
    obtain ⟨y, z, hyz⟩ := sliceZeroLast_false_iff.mp hl1
    have h2 := w2c.occ_get hyz
    have h3 := w3c.occ_get h2
    apply sliceZeroLast_false_iff.mpr
    refine ⟨y - b1 - 0, z - 0 - c1, ?_⟩
    have e : g3.dx - 1 = g1.dx - 1 - 0 - 0 := by
      rw [hdx32, hdx21]
      omega
    rw [e]
    exact h3
  have hsf3y : sliceZeroFirst (swap01 g3) = false := by
    obtain ⟨u, v, huv⟩ := sliceZeroFirst_false_iff.mp hf2
    have hg2get : g2.get u 0 v = true := by
      rw [hg2def, get_swap01]
      exact huv
    have h3 := w3c.occ_get hg2get
    apply sliceZeroFirst_false_iff.mpr
    refine ⟨u - 0, v - c1, ?_⟩
    rw [get_swap01]
    exact h3
  have hsl3y : sliceZeroLast (swap01 g3) = false := by
    obtain ⟨u, v, huv⟩ := sliceZeroLast_false_iff.mp hl2
    have hg2get : g2.get u (t2.dx - 1) v = true := by
      rw [hg2def, get_swap01]
      exact huv
    have h3 := w3c.occ_get hg2get
    apply sliceZeroLast_false_iff.mpr
    refine ⟨u - 0, v - c1, ?_⟩
    rw [get_swap01]
    have e2 : g2.dy = t2.dx := by rw [hg2def]; rfl
    have e : (swap01 g3).dx - 1 = t2.dx - 1 - 0 := by
      show g3.dy - 1 = t2.dx - 1 - 0
      rw [hdy32, e2]
      omega
    rw [e]
    exact h3
  have hswap02g3 : swap02 g3 = t3 := by
    rw [hg3def]
    exact swap02_swap02 hwt3
  have hsf3z : sliceZeroFirst (swap02 g3) = false := by
    rw [hswap02g3]
    exact hf3
  have hsl3z : sliceZeroLast (swap02 g3) = false := by
    rw [hswap02g3]
    exact hl3
  refine ⟨0 + 0 + a1, 0 + b1 + 0, c1 + 0 + 0, ?_, ?_⟩
  · rw [hcrop]
    exact (w3c.trans w2c).trans w1
  · rw [hcrop]
    simp [noZeroBoundary, hsf3, hsl3, hsf3y, hsl3y, hsf3z, hsl3z]

/-- C6: on a well-formed grid with at least one occupied cell, `crop_cube`
returns a sub-box of the input: cell values agree under a fixed translation
offset, every occupied cell of the input lies inside the box (so exactly the
occupied cells survive, relative positions preserved), and no boundary slice
of the result along any axis is all zero — the bounding box is minimal. -/
theorem crop_cube_minimal_bounding_box {g : Grid} (hw : g.WF) (hocc : HasOcc g) :
    ∃ a b c, Window (crop_cube g) g a b c ∧ noZeroBoundary (crop_cube g) = true :=
  crop_cube_window hw hocc

theorem crop_cube_minimal_bounding_box_witness :
    Grid.WF ⟨2, 2, 2, 128⟩ ∧ HasOcc ⟨2, 2, 2, 128⟩ ∧
    ∃ a b c, Window (crop_cube ⟨2, 2, 2, 128⟩) ⟨2, 2, 2, 128⟩ a b c ∧
      noZeroBoundary (crop_cube ⟨2, 2, 2, 128⟩) = true :=
  ⟨by decide, ⟨1, 1, 1, by decide⟩,
    crop_cube_minimal_bounding_box (by decide) ⟨1, 1, 1, by decide⟩⟩

/- ### Counting occupied cells through `pad`, `setCell` and `crop_cube` -/

theorem mem_occSet {g : Grid} {p : Nat × Nat × Nat} :
    p ∈ occSet g ↔ g.get p.1 p.2.1 p.2.2 = true := by
  constructor
  · intro h
    exact (Finset.mem_filter.mp h).2
  · intro h
    obtain ⟨hx, hy, hz⟩ := Grid.get_bounds h
    refine Finset.mem_filter.mpr ⟨?_, h⟩
    simp only [Finset.mem_product, Finset.mem_range]
    exact ⟨hx, hy, hz⟩

theorem hasOcc_of_countOcc_pos {g : Grid} (h : 1 ≤ countOcc g) : HasOcc g := by
  obtain ⟨p, hp⟩ := Finset.card_pos.mp h
  exact ⟨p.1, p.2.1, p.2.2, mem_occSet.mp hp⟩

theorem Window.countOcc_eq {s g : Grid} {a b c : Nat} (w : Window s g a b c) :
    countOcc s = countOcc g := by
  unfold countOcc
  apply Finset.card_bij (fun p _ => (p.1 + a, p.2.1 + b, p.2.2 + c))
  · intro p hp
    rw [mem_occSet] at hp ⊢
    obtain ⟨hx, hy, hz⟩ := Grid.get_bounds hp
    rw [← w.get_eq p.1 p.2.1 p.2.2 hx hy hz]
    exact hp
  · intro p hp q hq hpq
    obtain ⟨p1, p2, p3⟩ := p
    obtain ⟨q1, q2, q3⟩ := q
    simp only [Prod.mk.injEq] at hpq ⊢
    omega
  · intro q hq
    obtain ⟨q1, q2, q3⟩ := q
    rw [mem_occSet] at hq
    obtain ⟨h1, h2, h3, h4, h5, h6⟩ := w.occ q1 q2 q3 hq
    refine ⟨(q1 - a, q2 - b, q3 - c), mem_occSet.mpr (w.occ_get hq), ?_⟩
    simp only [Prod.mk.injEq]
    omega

theorem get_pad (g : Grid) (x y z : Nat) :
    (pad g).get x y z =
      (decide (1 ≤ x) && decide (1 ≤ y) && decide (1 ≤ z) &&
        g.get (x - 1) (y - 1) (z - 1)) := by
  rw [pad, Grid.get_ofFun]
  by_cases h : x < g.dx + 2 ∧ y < g.dy + 2 ∧ z < g.dz + 2
  · rw [if_pos h]
  · rw [if_neg h]
    have hg : g.get (x - 1) (y - 1) (z - 1) = false := by
      apply Grid.get_eq_false
      intro hc
      obtain ⟨h1, h2, h3⟩ := hc
      exact h ⟨by omega, by omega, by omega⟩
    rw [hg, Bool.and_false]

theorem window_pad (g : Grid) : Window g (pad g) 1 1 1 := by
  refine ⟨?_, ?_, ?_, ?_, ?_⟩
  · show g.dx + 1 ≤ g.dx + 2
    omega
  · show g.dy + 1 ≤ g.dy + 2
    omega
  · show g.dz + 1 ≤ g.dz + 2
    omega
  · intro x y z hx hy hz
    rw [get_pad]
    simp
  · intro x y z h
    rw [get_pad] at h
    simp only [Bool.and_eq_true, decide_eq_true_eq] at h
    obtain ⟨⟨⟨hx1, hy1⟩, hz1⟩, hg⟩ := h
    obtain ⟨hbx, hby, hbz⟩ := Grid.get_bounds hg
    refine ⟨hx1, by omega, hy1, by omega, hz1, by omega⟩

theorem pad_wf (g : Grid) : (pad g).WF := Grid.ofFun_wf _ _ _ _

theorem get_setCell {g : Grid} {x y z : Nat} (hx : x < g.dx) (hy : y < g.dy)
    (hz : z < g.dz) (a b c : Nat) :
    (setCell g x y z).get a b c =
      (g.get a b c || (a == x && b == y && c == z)) := by
  rw [setCell, Grid.get_ofFun]
  by_cases h : a < g.dx ∧ b < g.dy ∧ c < g.dz
  · rw [if_pos h]
  · rw [if_neg h]
    have hg : g.get a b c = false := Grid.get_eq_false h
    rw [hg, Bool.false_or]
    symm
    by_cases hax : a = x
    · by_cases hby2 : b = y
      · by_cases hcz : c = z
        · subst hax; subst hby2; subst hcz
          exact absurd ⟨hx, hy, hz⟩ h
        · simp [hcz]
      · simp [hby2]
    · simp [hax]

theorem setCell_wf (g : Grid) (x y z : Nat) : (setCell g x y z).WF :=
  Grid.ofFun_wf _ _ _ _

theorem countOcc_setCell {g : Grid} {x y z : Nat} (hx : x < g.dx) (hy : y < g.dy)
    (hz : z < g.dz) (hempty : g.get x y z = false) :
    countOcc (setCell g x y z) = countOcc g + 1 := by
  unfold countOcc
  have hset : occSet (setCell g x y z) = insert (x, y, z) (occSet g) := by
    ext p
    rw [Finset.mem_insert, mem_occSet, mem_occSet]
    obtain ⟨p1, p2, p3⟩ := p
    rw [get_setCell hx hy hz]
    constructor
    · intro h
      rw [Bool.or_eq_true] at h
      cases h with
      | inl h => exact Or.inr h
      | inr h =>
        simp only [Bool.and_eq_true, beq_iff_eq] at h
        exact Or.inl (by simp [h.1.1, h.1.2, h.2])
    · intro h
      rw [Bool.or_eq_true]
      cases h with
      | inl h =>
        right
        simp only [Prod.mk.injEq] at h
        simp [h.1, h.2.1, h.2.2]
      | inr h => exact Or.inl h
  rw [hset, Finset.card_insert_of_not_mem (by rw [mem_occSet]; simp [hempty])]

theorem mem_frontier {c : Grid} {p : Nat × Nat × Nat} (h : p ∈ frontier c) :
    p.1 < c.dx ∧ p.2.1 < c.dy ∧ p.2.2 < c.dz ∧
    c.get p.1 p.2.1 p.2.2 = false ∧ hasOccNeighbor c p.1 p.2.1 p.2.2 = true := by
  simp only [frontier, List.mem_flatMap, List.mem_filterMap, List.mem_range] at h
  obtain ⟨x, hx, y, hy, z, hz, hif⟩ := h
  by_cases hcond : (!c.get x y z && hasOccNeighbor c x y z) = true
  · rw [if_pos hcond] at hif
    injection hif with hif
    subst hif
    rw [Bool.and_eq_true, Bool.not_eq_true'] at hcond
    exact ⟨hx, hy, hz, hcond.1, hcond.2⟩
  · rw [if_neg hcond] at hif
    exact Option.noConfusion hif

theorem mem_expand_cube {g h : Grid} (hmem : h ∈ expand_cube g) :
    ∃ p ∈ frontier (pad g), h = crop_cube (setCell (pad g) p.1 p.2.1 p.2.2) := by
  simp only [expand_cube, List.mem_map] at hmem
  obtain ⟨p, hp, hph⟩ := hmem
  exact ⟨p, hp, hph.symm⟩

/-- C7: starting from a well-formed bounding-box-tight grid with `k ≥ 1`
occupied cells, every grid `expand_cube` yields has exactly `k + 1` occupied
cells and is itself bounding-box-tight. -/
theorem expand_cube_size_tight {g : Grid} (hw : g.WF) (k : Nat)
    (hk : countOcc g = k) (hk1 : 1 ≤ k) (ht : noZeroBoundary g = true) :
    ∀ h ∈ expand_cube g, countOcc h = k + 1 ∧ noZeroBoundary h = true := by
  intro h hmem
  obtain ⟨p, hp, hph⟩ := mem_expand_cube hmem
  obtain ⟨hx, hy, hz, hemp, hnb⟩ := mem_frontier hp
  have hwset : (setCell (pad g) p.1 p.2.1 p.2.2).WF := setCell_wf _ _ _ _
  have hoccset : HasOcc (setCell (pad g) p.1 p.2.1 p.2.2) := by
    refine ⟨p.1, p.2.1, p.2.2, ?_⟩
    rw [get_setCell hx hy hz]
    simp
  obtain ⟨a, b, c, w, hnzb⟩ := crop_cube_window hwset hoccset
  constructor
  · rw [hph, w.countOcc_eq, countOcc_setCell hx hy hz hemp,
      ← (window_pad g).countOcc_eq, hk]
  · rw [hph]
    exact hnzb

theorem expand_cube_size_tight_witness :
    Grid.WF ⟨1, 1, 1, 1⟩ ∧ countOcc ⟨1, 1, 1, 1⟩ = 1 ∧ 1 ≤ 1 ∧
    noZeroBoundary ⟨1, 1, 1, 1⟩ = true ∧
    ∀ h ∈ expand_cube ⟨1, 1, 1, 1⟩, countOcc h = 1 + 1 ∧ noZeroBoundary h = true :=
  ⟨by decide, by decide, by decide, by decide,
    expand_cube_size_tight (by decide) 1 (by decide) (by decide) (by decide)⟩

/- ### The frontier cells are pairwise distinct, the yielded grids are not -/

theorem frontier_inner_mem {c : Grid} {x y : Nat} {p : Nat × Nat × Nat}
    (h : p ∈ (List.range c.dz).filterMap (fun z =>
      if !c.get x y z && hasOccNeighbor c x y z then some (x, y, z) else none)) :
    p.1 = x ∧ p.2.1 = y := by
  obtain ⟨z, hz, hif⟩ := List.mem_filterMap.mp h
  by_cases hcond : (!c.get x y z && hasOccNeighbor c x y z) = true
  · rw [if_pos hcond] at hif
    injection hif with hif
    subst hif
    exact ⟨rfl, rfl⟩
  · rw [if_neg hcond] at hif
    exact Option.noConfusion hif

theorem frontier_mid_mem {c : Grid} {x : Nat} {p : Nat × Nat × Nat}
    (h : p ∈ (List.range c.dy).flatMap (fun y => (List.range c.dz).filterMap (fun z =>
      if !c.get x y z && hasOccNeighbor c x y z then some (x, y, z) else none))) :
    p.1 = x := by
  obtain ⟨y, hy, hmem⟩ := List.mem_flatMap.mp h
  exact (frontier_inner_mem hmem).1

theorem frontier_nodup (c : Grid) : (frontier c).Nodup := by
  unfold frontier
  rw [List.nodup_flatMap]
  constructor
  · intro x _
    rw [List.nodup_flatMap]
    constructor
    · intro y _
      refine List.Nodup.filterMap ?_ (List.nodup_range _)
      intro z z' p hp hp'
      rw [Option.mem_def] at hp hp'
      by_cases h1 : (!c.get x y z && hasOccNeighbor c x y z) = true
      · by_cases h2 : (!c.get x y z' && hasOccNeighbor c x y z') = true
        · rw [if_pos h1] at hp
          rw [if_pos h2] at hp'
          injection hp with hp0
          injection hp' with hp0'
          rw [← hp0'] at hp0
          exact congrArg (fun t => t.2.2) hp0
        · rw [if_neg h2] at hp'
          exact Option.noConfusion hp'
      · rw [if_neg h1] at hp
        exact Option.noConfusion hp
    · refine List.Pairwise.imp ?_ (List.nodup_range _)
      intro y y' hne p hp hp'
      exact hne ((frontier_inner_mem hp).2.symm.trans (frontier_inner_mem hp').2)
  · refine List.Pairwise.imp ?_ (List.nodup_range _)
    intro x x' hne p hp hp'
    exact hne ((frontier_mid_mem hp).symm.trans (frontier_mid_mem hp'))

/-- C9 counterexample: the unit cube is tight and has one occupied cell, yet
the six grids `expand_cube` yields are not pairwise distinct — growing in the
`+x` and `-x` directions both give the same 2×1×1 grid after cropping. -/
theorem expand_cube_duplicate_outputs :
    noZeroBoundary ⟨1, 1, 1, 1⟩ = true ∧ countOcc ⟨1, 1, 1, 1⟩ = 1 ∧
    ¬ (expand_cube ⟨1, 1, 1, 1⟩).Pairwise (fun p q => p ≠ q) := by
  decide!

/-- C9: amended — the grids `expand_cube` yields need not be pairwise
distinct (see the counterexample on the unit cube); what does hold is that
they are indexed by pairwise-distinct frontier cells: the output list is one
cropped grid per frontier cell of the padded input, and the frontier list
itself has no duplicate positions. -/
theorem expand_cube_distinct_frontier (g : Grid) :
    (frontier (pad g)).Nodup ∧
    expand_cube g = (frontier (pad g)).map
      (fun p => crop_cube (setCell (pad g) p.1 p.2.1 p.2.2)) :=
  ⟨frontier_nodup _, rfl⟩

/- ### A decoder for the run-length fingerprint -/

/-- Decode a list of signed run lengths back into the flat {0,1} sequence:
a nonnegative entry `v` stands for `v` ones, a negative entry `-v` for `v`
zeros. -/
def decodeRuns : List Int → List Bool
  | [] => []
  | r :: rs =>
    (if 0 ≤ r then List.replicate r.toNat true else List.replicate (-r).toNat false) ++
      decodeRuns rs

theorem decodeRuns_runsAux : ∀ (xs : List Bool) (c : Bool) (v : Nat),
    decodeRuns (runsAux c v xs) = List.replicate v c ++ xs := by
  intro xs
  induction xs with
  | nil =>
    intro c v
    show decodeRuns [if c then (v : Int) else -(v : Int)] = _
    cases c
    · rcases Nat.eq_zero_or_pos v with hv | hv
      · subst hv; simp [decodeRuns]
      · have hneg : ¬ (0 ≤ -(v : Int)) := by omega
        simp [decodeRuns, hneg]
    · simp [decodeRuns]
  | cons x xs ih =>
    intro c v
    show decodeRuns (if c == x then runsAux c (v + 1) xs
        else (if c then (v : Int) else -(v : Int)) :: runsAux x 1 xs) = _
    cases hcx : c == x
    · rw [if_neg (by simp [hcx])]
      show decodeRuns (_ :: runsAux x 1 xs) = _
      have hx : decodeRuns ((if c then (v : Int) else -(v : Int)) :: runsAux x 1 xs) =
          (if 0 ≤ (if c then (v : Int) else -(v : Int)) then
              List.replicate (if c then (v : Int) else -(v : Int)).toNat true
            else List.replicate (-(if c then (v : Int) else -(v : Int))).toNat false) ++
            decodeRuns (runsAux x 1 xs) := rfl
      rw [hx, ih]
      cases c
      · rcases Nat.eq_zero_or_pos v with hv | hv
        · subst hv; simp
        · have hneg : ¬ (0 ≤ -(v : Int)) := by omega
          simp [hneg]
      · simp
    · have hc : c = x := by
        cases c <;> cases x <;> simp_all
      subst hc
      rw [if_pos rfl, ih]
      rw [List.replicate_succ' v c, List.append_assoc]
      rfl

theorem length_flatList (g : Grid) : (flatList g).length = g.size := by
  simp [flatList]

theorem decodeRuns_rle_tail (g : Grid) : decodeRuns ((rle g).drop 3) = flatList g := by
  have h : (rle g).drop 3 =
      match flatList g with
      | [] => [(0 : Int)]
      | x :: xs => runsAux x 1 xs := rfl
  rw [h]
  cases hf : flatList g with
  | nil => simp [decodeRuns]
  | cons x xs =>
    rw [decodeRuns_runsAux]
    simp

theorem rle_dims (g : Grid) :
    rle g = (g.dx : Int) :: (g.dy : Int) :: (g.dz : Int) :: (rle g).drop 3 := rfl

theorem flatList_get? (g : Grid) (i : Nat) (hi : i < g.size) :
    (flatList g).get? i = some (Nat.testBit g.cells i) := by
  simp [flatList, List.get?_map]
  exact ⟨i, by simp [List.getElem?_range hi], rfl⟩

/- ### C8, C4, C5, C10 -/

/-- C8 counterexample: called at `n = 0` (not a positive size), the function
does not surface an error; it returns the ordinary value `[]`, exactly as for
any valid size with no polycubes. -/
theorem generate_polycubes_zero_no_error : generate_polycubes 0 = [] := rfl

/-- C8: amended — for every `n < 1` the guard `if n < 1: return []` makes
`generate_polycubes` return the empty list normally; no exception is raised
and no partial result is produced. -/
theorem generate_polycubes_nonpositive_nil (n : Int) (h : n < 1) :
    generate_polycubes n = [] := by
  simp [generate_polycubes, h]

theorem generate_polycubes_nonpositive_nil_witness :
    (-5 : Int) < 1 ∧ generate_polycubes (-5) = [] :=
  ⟨by decide, generate_polycubes_nonpositive_nil (-5) (by decide)⟩

/-- C4: for every well-formed grid, `all_rotations` yields exactly 24 grids,
namely the images of the grid under the 24 elements of `rotElems`, a
duplicate-free enumeration of exactly the proper rotations (determinant `+1`
signed axis permutations) of the cube — each group element once. -/
theorem all_rotations_rotation_group {g : Grid} (hw : g.WF) :
    (all_rotations g).length = 24 ∧
    all_rotations g = rotElems.map (fun e => rotE e g) ∧
    rotElems.Nodup ∧
    (∀ e : SP, e ∈ rotElems ↔ IsProper e) := by
  refine ⟨?_, all_rotations_eq_map hw, rotElems_nodup, rotElems_iff_proper⟩
  rw [all_rotations_eq_map hw, List.length_map, rotElems_length]

theorem all_rotations_rotation_group_witness :
    Grid.WF ⟨1, 1, 1, 1⟩ ∧
    ((all_rotations ⟨1, 1, 1, 1⟩).length = 24 ∧
      all_rotations ⟨1, 1, 1, 1⟩ = rotElems.map (fun e => rotE e ⟨1, 1, 1, 1⟩) ∧
      rotElems.Nodup ∧
      (∀ e : SP, e ∈ rotElems ↔ IsProper e)) :=
  ⟨by decide, all_rotations_rotation_group (by decide)⟩

/-- C5: if the fingerprint of some rotation of a well-formed grid is in the
dedup set, then `cube_exists_rle` answers true on every one of the grid's 24
rotations: the duplicate check is invariant under rotating its first
argument. -/
theorem cube_exists_rle_rotation_invariant {g : Grid} (hw : g.WF)
    (s : List (List Int)) (hr : ∃ r ∈ all_rotations g, s.contains (rle r) = true) :
    ∀ g' ∈ all_rotations g, cube_exists_rle g' s = true := by
  obtain ⟨r, hrmem, hrs⟩ := hr
  rw [all_rotations_eq_map hw] at hrmem
  obtain ⟨e0, he0, he0r⟩ := List.mem_map.mp hrmem
  intro g' hg'
  rw [all_rotations_eq_map hw] at hg'
  obtain ⟨e, he, heg'⟩ := List.mem_map.mp hg'
  obtain ⟨f, hf, hfe⟩ := rotElems_transfer e he e0 he0
  rw [cube_exists_rle, List.any_eq_true]
  refine ⟨rotE f g', ?_, ?_⟩
  · rw [all_rotations_eq_map (by rw [← heg']; exact rotE_wf e g)]
    exact List.mem_map.mpr ⟨f, hf, rfl⟩
  · rw [← heg', rotE_comp, hfe, he0r]
    exact hrs

theorem cube_exists_rle_rotation_invariant_witness :
    Grid.WF ⟨1, 1, 1, 1⟩ ∧
    (∃ r ∈ all_rotations ⟨1, 1, 1, 1⟩, [rle ⟨1, 1, 1, 1⟩].contains (rle r) = true) ∧
    (∀ g' ∈ all_rotations ⟨1, 1, 1, 1⟩,
      cube_exists_rle g' [rle ⟨1, 1, 1, 1⟩] = true) :=
  ⟨by decide, by decide,
    cube_exists_rle_rotation_invariant (by decide) [rle ⟨1, 1, 1, 1⟩] (by decide)⟩

/-- C10: the fingerprint is injective — two well-formed nonempty grids with
the same `rle` have the same dimensions and the same cells, i.e. are equal
(the decoder `decodeRuns` reconstructs the flat sequence from the tuple). -/
theorem rle_injective {g1 g2 : Grid} (h1 : g1.WF) (h2 : g2.WF)
    (hs1 : 1 ≤ g1.size) (hs2 : 1 ≤ g2.size) (h : rle g1 = rle g2) : g1 = g2 := by
  have hdx : g1.dx = g2.dx := by
    have := congrArg (fun l => l.get? 0) h
    simp [rle] at this
    exact_mod_cast this
  have hdy : g1.dy = g2.dy := by
    have := congrArg (fun l => l.get? 1) h
    simp [rle] at this
    exact_mod_cast this
  have hdz : g1.dz = g2.dz := by
    have := congrArg (fun l => l.get? 2) h
    simp [rle] at this
    exact_mod_cast this
  have hflat : flatList g1 = flatList g2 := by
    rw [← decodeRuns_rle_tail, ← decodeRuns_rle_tail, h]
  have hsize : g1.size = g2.size := by simp [Grid.size, hdx, hdy, hdz]
  have hcells : g1.cells = g2.cells := by
    apply Nat.eq_of_testBit_eq
    intro i
    by_cases hi : i < g1.size
    · have e1 := flatList_get? g1 i hi
      have e2 := flatList_get? g2 i (hsize ▸ hi)
      rw [hflat, e2] at e1
      exact (Option.some.inj e1).symm
    · have b1 : Nat.testBit g1.cells i = false := by
        apply Nat.testBit_lt_two_pow
        exact lt_of_lt_of_le h1 (Nat.pow_le_pow_right (by norm_num) (by omega))
      have b2 : Nat.testBit g2.cells i = false := by
        apply Nat.testBit_lt_two_pow
        exact lt_of_lt_of_le h2 (Nat.pow_le_pow_right (by norm_num) (by omega))
      rw [b1, b2]
  cases g1; cases g2
  simp_all

theorem rle_injective_witness :
    Grid.WF ⟨1, 1, 1, 1⟩ ∧ 1 ≤ Grid.size ⟨1, 1, 1, 1⟩ ∧ (⟨1, 1, 1, 1⟩ : Grid) = ⟨1, 1, 1, 1⟩ :=
  ⟨by decide, by decide, rle_injective (by decide) (by decide) (by decide) (by decide) rfl⟩

/- ### Connectivity of the generated polycubes -/

/-- Face adjacency: equal in two coordinates, at distance one in the third. -/
def adj (p q : Nat × Nat × Nat) : Prop :=
  (p.1 = q.1 ∧ p.2.1 = q.2.1 ∧ Nat.dist p.2.2 q.2.2 = 1) ∨
  (p.1 = q.1 ∧ p.2.2 = q.2.2 ∧ Nat.dist p.2.1 q.2.1 = 1) ∨
  (p.2.1 = q.2.1 ∧ p.2.2 = q.2.2 ∧ Nat.dist p.1 q.1 = 1)

/-- One move between two occupied, face-adjacent cells of `g`. -/
def step (g : Grid) (p q : Nat × Nat × Nat) : Prop :=
  g.get p.1 p.2.1 p.2.2 = true ∧ g.get q.1 q.2.1 q.2.2 = true ∧ adj p q

/-- Any two occupied cells are joined by a path of face-adjacent occupied
cells. -/
def Connected (g : Grid) : Prop :=
  ∀ p q : Nat × Nat × Nat, g.get p.1 p.2.1 p.2.2 = true →
    g.get q.1 q.2.1 q.2.2 = true → Relation.ReflTransGen (step g) p q

theorem adj_symm {p q : Nat × Nat × Nat} (h : adj p q) : adj q p := by
  simp only [adj] at h ⊢
  rcases h with ⟨h1, h2, h3⟩ | ⟨h1, h2, h3⟩ | ⟨h1, h2, h3⟩
  · exact Or.inl ⟨h1.symm, h2.symm, by rw [Nat.dist_comm]; exact h3⟩
  · exact Or.inr (Or.inl ⟨h1.symm, h2.symm, by rw [Nat.dist_comm]; exact h3⟩)
  · exact Or.inr (Or.inr ⟨h1.symm, h2.symm, by rw [Nat.dist_comm]; exact h3⟩)

theorem step_symm {g : Grid} {p q : Nat × Nat × Nat} (h : step g p q) : step g q p :=
  ⟨h.2.1, h.1, adj_symm h.2.2⟩

theorem Window.connected_of {s g : Grid} {a b c : Nat} (w : Window s g a b c)
    (h : Connected g) : Connected s := by
  intro p q hp hq
  obtain ⟨p1, p2, p3⟩ := p
  obtain ⟨q1, q2, q3⟩ := q
  obtain ⟨hpx, hpy, hpz⟩ := Grid.get_bounds hp
  obtain ⟨hqx, hqy, hqz⟩ := Grid.get_bounds hq
  have hp' : g.get (p1 + a) (p2 + b) (p3 + c) = true := by
    rw [← w.get_eq _ _ _ hpx hpy hpz]
    exact hp
  have hq' : g.get (q1 + a) (q2 + b) (q3 + c) = true := by
    rw [← w.get_eq _ _ _ hqx hqy hqz]
    exact hq
  have hstep : ∀ u1 u2 u3 v1 v2 v3 : Nat, step g (u1, u2, u3) (v1, v2, v3) →
      step s (u1 - a, u2 - b, u3 - c) (v1 - a, v2 - b, v3 - c) := by
    rintro u1 u2 u3 v1 v2 v3 ⟨hu, hv, hadj⟩
    obtain ⟨k1, k2, k3, k4, k5, k6⟩ := w.occ u1 u2 u3 hu
    obtain ⟨m1, m2, m3, m4, m5, m6⟩ := w.occ v1 v2 v3 hv
    refine ⟨w.occ_get hu, w.occ_get hv, ?_⟩
    simp only [adj] at hadj ⊢
    rcases hadj with ⟨h1, h2, h3⟩ | ⟨h1, h2, h3⟩ | ⟨h1, h2, h3⟩
    · exact Or.inl ⟨by omega, by omega, by simp only [Nat.dist] at h3 ⊢; omega⟩
    · exact Or.inr (Or.inl ⟨by omega, by omega, by simp only [Nat.dist] at h3 ⊢; omega⟩)
    · exact Or.inr (Or.inr ⟨by omega, by omega, by simp only [Nat.dist] at h3 ⊢; omega⟩)
  have hpath := h (p1 + a, p2 + b, p3 + c) (q1 + a, q2 + b, q3 + c) hp' hq'
  have hlift := Relation.ReflTransGen.lift
    (fun u : Nat × Nat × Nat => (u.1 - a, u.2.1 - b, u.2.2 - c))
    (fun u v huv => hstep u.1 u.2.1 u.2.2 v.1 v.2.1 v.2.2 huv) hpath
  simpa using hlift

theorem Window.connected_to {s g : Grid} {a b c : Nat} (w : Window s g a b c)
    (h : Connected s) : Connected g := by
  intro p q hp hq
  obtain ⟨p1, p2, p3⟩ := p
  obtain ⟨q1, q2, q3⟩ := q
  obtain ⟨hp1, hp2, hp3, hp4, hp5, hp6⟩ := w.occ p1 p2 p3 hp
  obtain ⟨hq1, hq2, hq3, hq4, hq5, hq6⟩ := w.occ q1 q2 q3 hq
  have hp' := w.occ_get hp
  have hq' := w.occ_get hq
  have hstep : ∀ u1 u2 u3 v1 v2 v3 : Nat, step s (u1, u2, u3) (v1, v2, v3) →
      step g (u1 + a, u2 + b, u3 + c) (v1 + a, v2 + b, v3 + c) := by
    rintro u1 u2 u3 v1 v2 v3 ⟨hu, hv, hadj⟩
    obtain ⟨hux, huy, huz⟩ := Grid.get_bounds hu
    obtain ⟨hvx, hvy, hvz⟩ := Grid.get_bounds hv
    refine ⟨?_, ?_, ?_⟩
    · rw [← w.get_eq _ _ _ hux huy huz]
      exact hu
    · rw [← w.get_eq _ _ _ hvx hvy hvz]
      exact hv
    · simp only [adj] at hadj ⊢
      rcases hadj with ⟨h1, h2, h3⟩ | ⟨h1, h2, h3⟩ | ⟨h1, h2, h3⟩
      · exact Or.inl ⟨by omega, by omega, by simp only [Nat.dist] at h3 ⊢; omega⟩
      · exact Or.inr (Or.inl ⟨by omega, by omega, by simp only [Nat.dist] at h3 ⊢; omega⟩)
      · exact Or.inr (Or.inr ⟨by omega, by omega, by simp only [Nat.dist] at h3 ⊢; omega⟩)
  have hpath := h (p1 - a, p2 - b, p3 - c) (q1 - a, q2 - b, q3 - c) hp' hq'
  have hlift := Relation.ReflTransGen.lift
    (fun u : Nat × Nat × Nat => (u.1 + a, u.2.1 + b, u.2.2 + c))
    (fun u v huv => hstep u.1 u.2.1 u.2.2 v.1 v.2.1 v.2.2 huv) hpath
  have e1 : p1 - a + a = p1 := by omega
  have e2 : p2 - b + b = p2 := by omega
  have e3 : p3 - c + c = p3 := by omega
  have e4 : q1 - a + a = q1 := by omega
  have e5 : q2 - b + b = q2 := by omega
  have e6 : q3 - c + c = q3 := by omega
  simpa [e1, e2, e3, e4, e5, e6] using hlift

theorem connected_setCell {c : Grid} {x y z : Nat} (hx : x < c.dx) (hy : y < c.dy)
    (hz : z < c.dz) (hnb : hasOccNeighbor c x y z = true) (hconn : Connected c) :
    Connected (setCell c x y z) := by
  have hstep0 : ∃ n : Nat × Nat × Nat, c.get n.1 n.2.1 n.2.2 = true ∧ adj (x, y, z) n := by
    simp only [hasOccNeighbor, Bool.or_eq_true, Bool.and_eq_true,
      decide_eq_true_eq] at hnb
    rcases hnb with ((((h | ⟨hx1, h⟩) | h) | ⟨hy1, h⟩) | h) | ⟨hz1, h⟩
    · exact ⟨(x + 1, y, z), h, Or.inr (Or.inr ⟨rfl, rfl, by simp only [Nat.dist]; omega⟩)⟩
    · exact ⟨(x - 1, y, z), h, Or.inr (Or.inr ⟨rfl, rfl, by simp only [Nat.dist]; omega⟩)⟩
    · exact ⟨(x, y + 1, z), h, Or.inr (Or.inl ⟨rfl, rfl, by simp only [Nat.dist]; omega⟩)⟩
    · exact ⟨(x, y - 1, z), h, Or.inr (Or.inl ⟨rfl, rfl, by simp only [Nat.dist]; omega⟩)⟩
    · exact ⟨(x, y, z + 1), h, Or.inl ⟨rfl, rfl, by simp only [Nat.dist]; omega⟩⟩
    · exact ⟨(x, y, z - 1), h, Or.inl ⟨rfl, rfl, by simp only [Nat.dist]; omega⟩⟩
  obtain ⟨nb, hnb1, hnb2⟩ := hstep0
  have hocc_new : (setCell c x y z).get x y z = true := by
    rw [get_setCell hx hy hz]
    simp
  have hold : ∀ u1 u2 u3 : Nat, c.get u1 u2 u3 = true →
      (setCell c x y z).get u1 u2 u3 = true := by
    intro u1 u2 u3 hu
    rw [get_setCell hx hy hz, hu, Bool.true_or]
  have hmono : ∀ u v : Nat × Nat × Nat, step c u v → step (setCell c x y z) u v := by
    rintro u v ⟨hu, hv, ha⟩
    exact ⟨hold _ _ _ hu, hold _ _ _ hv, ha⟩
  have hlift : ∀ {p q : Nat × Nat × Nat}, Relation.ReflTransGen (step c) p q →
      Relation.ReflTransGen (step (setCell c x y z)) p q :=
    fun h => Relation.ReflTransGen.mono hmono h
  have hnewstep : step (setCell c x y z) (x, y, z) nb :=
    ⟨hocc_new, hold _ _ _ hnb1, hnb2⟩
  intro p q hp hq
  obtain ⟨p1, p2, p3⟩ := p
  obtain ⟨q1, q2, q3⟩ := q
  rw [get_setCell hx hy hz, Bool.or_eq_true] at hp hq
  cases hp with
  | inl hpold =>
    cases hq with
    | inl hqold => exact hlift (hconn _ _ hpold hqold)
    | inr hqnew =>
      simp only [Bool.and_eq_true, beq_iff_eq] at hqnew
      obtain ⟨⟨hq1, hq2⟩, hq3⟩ := hqnew
      subst hq1; subst hq2; subst hq3
      exact (hlift (hconn _ _ hpold hnb1)).tail (step_symm hnewstep)
  | inr hpnew =>
    simp only [Bool.and_eq_true, beq_iff_eq] at hpnew
    obtain ⟨⟨hp1, hp2⟩, hp3⟩ := hpnew
    subst hp1; subst hp2; subst hp3
    cases hq with
    | inl hqold =>
      exact Relation.ReflTransGen.head hnewstep (hlift (hconn _ _ hnb1 hqold))
    | inr hqnew =>
      simp only [Bool.and_eq_true, beq_iff_eq] at hqnew
      obtain ⟨⟨hq1, hq2⟩, hq3⟩ := hqnew
      subst hq1; subst hq2; subst hq3
      exact Relation.ReflTransGen.refl

theorem crop_cube_wf (g : Grid) : (crop_cube g).WF := swap02_wf _

theorem expand_cube_good {g : Grid} (hg : g.WF ∧ HasOcc g ∧ Connected g) :
    ∀ h ∈ expand_cube g, h.WF ∧ HasOcc h ∧ Connected h := by
  obtain ⟨hw, hocc, hconn⟩ := hg
  intro h hmem
  obtain ⟨p, hp, hph⟩ := mem_expand_cube hmem
  obtain ⟨hx, hy, hz, hemp, hnb⟩ := mem_frontier hp
  have hconn_pad : Connected (pad g) := (window_pad g).connected_to hconn
  have hconn_set : Connected (setCell (pad g) p.1 p.2.1 p.2.2) :=
    connected_setCell hx hy hz hnb hconn_pad
  have hwset := setCell_wf (pad g) p.1 p.2.1 p.2.2
  have hoccset : HasOcc (setCell (pad g) p.1 p.2.1 p.2.2) := by
    refine ⟨p.1, p.2.1, p.2.2, ?_⟩
    rw [get_setCell hx hy hz]
    simp
  obtain ⟨a, b, c, w, hnzb⟩ := crop_cube_window hwset hoccset
  refine ⟨?_, ?_, ?_⟩
  · rw [hph]
    exact crop_cube_wf _
  · rw [hph]
    exact w.hasOcc hoccset
  · rw [hph]
    exact w.connected_of hconn_set

theorem connected_single : Connected ⟨1, 1, 1, 1⟩ := by
  intro p q hp hq
  obtain ⟨p1, p2, p3⟩ := p
  obtain ⟨q1, q2, q3⟩ := q
  obtain ⟨hb1, hb2, hb3⟩ := Grid.get_bounds hp
  obtain ⟨hc1, hc2, hc3⟩ := Grid.get_bounds hq
  have hb1' : p1 < 1 := hb1
  have hb2' : p2 < 1 := hb2
  have hb3' : p3 < 1 := hb3
  have hc1' : q1 < 1 := hc1
  have hc2' : q2 < 1 := hc2
  have hc3' : q3 < 1 := hc3
  have hpe : p1 = 0 ∧ p2 = 0 ∧ p3 = 0 := by omega
  have hqe : q1 = 0 ∧ q2 = 0 ∧ q3 = 0 := by omega
  obtain ⟨e1, e2, e3⟩ := hpe
  obtain ⟨f1, f2, f3⟩ := hqe
  subst e1; subst e2; subst e3; subst f1; subst f2; subst f3
  exact Relation.ReflTransGen.refl

theorem connected_two : Connected ⟨2, 1, 1, 3⟩ := by
  intro p q hp hq
  obtain ⟨p1, p2, p3⟩ := p
  obtain ⟨q1, q2, q3⟩ := q
  obtain ⟨hb1, hb2, hb3⟩ := Grid.get_bounds hp
  obtain ⟨hc1, hc2, hc3⟩ := Grid.get_bounds hq
  have hb1' : p1 < 2 := hb1
  have hb2' : p2 < 1 := hb2
  have hb3' : p3 < 1 := hb3
  have hc1' : q1 < 2 := hc1
  have hc2' : q2 < 1 := hc2
  have hc3' : q3 < 1 := hc3
  have e2 : p2 = 0 := by omega
  have e3 : p3 = 0 := by omega
  have f2 : q2 = 0 := by omega
  have f3 : q3 = 0 := by omega
  subst e2; subst e3; subst f2; subst f3
  have hstep01 : step ⟨2, 1, 1, 3⟩ (0, 0, 0) (1, 0, 0) :=
    ⟨by decide, by decide, Or.inr (Or.inr ⟨rfl, rfl, by decide⟩)⟩
  have h1 : p1 = 0 ∨ p1 = 1 := by omega
  have h2 : q1 = 0 ∨ q1 = 1 := by omega
  rcases h1 with h1 | h1 <;> rcases h2 with h2 | h2 <;> subst h1 <;> subst h2
  · exact Relation.ReflTransGen.refl
  · exact Relation.ReflTransGen.single hstep01
  · exact Relation.ReflTransGen.single (step_symm hstep01)
  · exact Relation.ReflTransGen.refl

/- ### Membership in the generator's accumulator folds -/

theorem genStep_cases (acc : List Grid × List (List Int)) (nc : Grid) :
    genStep acc nc = acc ∨
    genStep acc nc = (acc.1 ++ [nc], acc.2 ++ [rle nc]) := by
  unfold genStep
  by_cases hc : cube_exists_rle nc acc.2 = true
  · rw [if_pos hc]
    exact Or.inl rfl
  · rw [if_neg hc]
    exact Or.inr rfl

theorem foldl_genStep_mem (Q : Grid → Prop) :
    ∀ (l : List Grid) (acc : List Grid × List (List Int)),
      (∀ h ∈ acc.1, Q h) → (∀ nc ∈ l, Q nc) →
      ∀ h ∈ (l.foldl genStep acc).1, Q h := by
  intro l
  induction l with
  | nil => exact fun acc hacc _ h hm => hacc h hm
  | cons nc l ih =>
    intro acc hacc hl h hm
    rw [List.foldl_cons] at hm
    refine ih (genStep acc nc) ?_ (fun x hx => hl x (List.mem_cons_of_mem _ hx)) h hm
    intro x hx
    rcases genStep_cases acc nc with he | he
    · rw [he] at hx
      exact hacc x hx
    · rw [he] at hx
      rcases List.mem_append.mp hx with hx | hx
      · exact hacc x hx
      · rw [List.mem_singleton] at hx
        subst hx
        exact hl x (List.mem_cons_self _ _)

theorem genLevel_mem (Q : Grid → Prop) (base : List Grid)
    (hbase : ∀ c ∈ base, ∀ nc ∈ expand_cube c, Q nc) :
    ∀ h ∈ genLevel base, Q h := by
  unfold genLevel
  suffices hgen : ∀ (l : List Grid) (acc : List Grid × List (List Int)),
      (∀ h ∈ acc.1, Q h) → (∀ c ∈ l, ∀ nc ∈ expand_cube c, Q nc) →
      ∀ h ∈ (l.foldl (fun acc c => (expand_cube c).foldl genStep acc) acc).1, Q h by
    intro h hm
    refine hgen base ([], []) ?_ hbase h hm
    intro h2 hm2
    exact absurd hm2 (List.not_mem_nil h2)
  intro l
  induction l with
  | nil => exact fun acc hacc _ h hm => hacc h hm
  | cons c l ih =>
    intro acc hacc hl h hm
    rw [List.foldl_cons] at hm
    refine ih _ ?_ (fun c2 hc2 => hl c2 (List.mem_cons_of_mem _ hc2)) h hm
    exact foldl_genStep_mem Q _ _ hacc (hl c (List.mem_cons_self _ _))

theorem genCubes_good (n : Nat) :
    ∀ g ∈ genCubes n, g.WF ∧ HasOcc g ∧ Connected g := by
  induction n using Nat.strong_induction_on with
  | _ n ih =>
    match n with
    | 0 =>
      intro g hg
      simp only [genCubes] at hg
      exact absurd hg (List.not_mem_nil g)
    | 1 =>
      intro g hg
      simp only [genCubes, List.mem_singleton] at hg
      subst hg
      exact ⟨by decide, ⟨0, 0, 0, by decide⟩, connected_single⟩
    | 2 =>
      intro g hg
      simp only [genCubes, List.mem_singleton] at hg
      subst hg
      exact ⟨by decide, ⟨0, 0, 0, by decide⟩, connected_two⟩
    | n + 3 =>
      simp only [genCubes]
      refine genLevel_mem (fun h => h.WF ∧ HasOcc h ∧ Connected h) _ ?_
      intro c hc nc hnc
      exact expand_cube_good (ih (n + 2) (by omega) c hc) nc hnc

/-- C3: every grid returned by `generate_polycubes` for `n ≥ 1` is connected:
any two occupied cells are joined by a path of face-adjacent occupied cells. -/
theorem generate_polycubes_connected (n : Int) (hn : 1 ≤ n) :
    ∀ g ∈ generate_polycubes n, Connected g := by
  intro g hm
  unfold generate_polycubes at hm
  rw [if_neg (by omega)] at hm
  exact (genCubes_good n.toNat g hm).2.2

theorem generate_polycubes_connected_witness :
    1 ≤ (1 : Int) ∧ ∀ g ∈ generate_polycubes 1, Connected g :=
  ⟨by decide, generate_polycubes_connected 1 (by decide)⟩

/- ### No two returned grids are rotations of one another -/

/-- The dedup invariant of the generator's accumulator: the stored
fingerprints are those of the stored grids, the grids are well formed, and no
stored grid is a rotation of an earlier one. -/
def DistinctInv (acc : List Grid × List (List Int)) : Prop :=
  acc.2 = acc.1.map rle ∧ (∀ g ∈ acc.1, g.WF) ∧
    acc.1.Pairwise (fun p q => ∀ e ∈ rotElems, rotE e p ≠ q)

theorem genStep_inv {acc : List Grid × List (List Int)} {nc : Grid}
    (hinv : DistinctInv acc) (hnc : nc.WF) : DistinctInv (genStep acc nc) := by
  obtain ⟨hmap, hwf, hpw⟩ := hinv
  unfold genStep
  by_cases hc : cube_exists_rle nc acc.2 = true
  · rw [if_pos hc]
    exact ⟨hmap, hwf, hpw⟩
  · rw [if_neg hc]
    refine ⟨?_, ?_, ?_⟩
    · show acc.2 ++ [rle nc] = (acc.1 ++ [nc]).map rle
      rw [List.map_append, hmap]
      rfl
    · intro g hg
      rcases List.mem_append.mp hg with h | h
      · exact hwf g h
      · rw [List.mem_singleton] at h
        subst h
        exact hnc
    · show (acc.1 ++ [nc]).Pairwise (fun p q => ∀ e ∈ rotElems, rotE e p ≠ q)
      rw [List.pairwise_append]
      refine ⟨hpw, List.pairwise_singleton _ _, ?_⟩
      intro p hp q hq e he heq
      rw [List.mem_singleton] at hq
      rw [hq] at heq
      apply hc
      rw [cube_exists_rle, List.any_eq_true]
      obtain ⟨f, hf, hfe⟩ := rotElems_inv e he
      refine ⟨rotE f nc, ?_, ?_⟩
      · rw [all_rotations_eq_map hnc]
        exact List.mem_map.mpr ⟨f, hf, rfl⟩
      · rw [← heq, rotE_comp, hfe.1, rotE_id (hwf p hp), hmap]
        exact List.elem_iff.mpr (List.mem_map.mpr ⟨p, hp, rfl⟩)

theorem foldl_genStep_inv : ∀ (l : List Grid) (acc : List Grid × List (List Int)),
    DistinctInv acc → (∀ nc ∈ l, nc.WF) →
    DistinctInv (l.foldl genStep acc) := by
  intro l
  induction l with
  | nil => exact fun acc ha _ => ha
  | cons nc l ih =>
    intro acc ha hl
    rw [List.foldl_cons]
    exact ih _ (genStep_inv ha (hl nc (List.mem_cons_self _ _)))
      (fun x hx => hl x (List.mem_cons_of_mem _ hx))

theorem genLevel_pairwise (base : List Grid) :
    (∀ g ∈ genLevel base, g.WF) ∧
    (genLevel base).Pairwise (fun p q => ∀ e ∈ rotElems, rotE e p ≠ q) := by
  suffices h : ∀ (l : List Grid) (acc : List Grid × List (List Int)),
      DistinctInv acc →
      DistinctInv (l.foldl (fun acc c => (expand_cube c).foldl genStep acc) acc) by
    have h2 := h base ([], [])
      ⟨rfl, fun g hg => absurd hg (List.not_mem_nil g), List.Pairwise.nil⟩
    exact ⟨h2.2.1, h2.2.2⟩
  intro l
  induction l with
  | nil => exact fun acc ha => ha
  | cons c l ih =>
    intro acc ha
    rw [List.foldl_cons]
    refine ih _ (foldl_genStep_inv _ _ ha ?_)
    intro nc hnc
    obtain ⟨p, hp, hph⟩ := mem_expand_cube hnc
    rw [hph]
    exact crop_cube_wf _

theorem genCubes_pairwise (n : Nat) :
    (∀ g ∈ genCubes n, g.WF) ∧
    (genCubes n).Pairwise (fun p q => ∀ e ∈ rotElems, rotE e p ≠ q) := by
  match n with
  | 0 =>
    refine ⟨?_, ?_⟩
    · intro g hg
      simp only [genCubes] at hg
      exact absurd hg (List.not_mem_nil g)
    · simp only [genCubes]
      exact List.Pairwise.nil
  | 1 =>
    refine ⟨?_, ?_⟩
    · intro g hg
      simp only [genCubes, List.mem_singleton] at hg
      subst hg
      decide
    · simp only [genCubes]
      exact List.pairwise_singleton _ _
  | 2 =>
    refine ⟨?_, ?_⟩
    · intro g hg
      simp only [genCubes, List.mem_singleton] at hg
      subst hg
      decide
    · simp only [genCubes]
      exact List.pairwise_singleton _ _
  | n + 3 =>
    simp only [genCubes]
    exact genLevel_pairwise _

/-- C2: for `n ≥ 1` the returned list contains each shape once — for any two
entries at different positions, no element of the 24-member rotation group
maps one grid onto the other, in either direction. -/
theorem generate_polycubes_no_rotated_duplicates (n : Int) (hn : 1 ≤ n) :
    (generate_polycubes n).Pairwise (fun p q =>
      (∀ r ∈ all_rotations p, r ≠ q) ∧ (∀ r ∈ all_rotations q, r ≠ p)) := by
  obtain ⟨hwf, hpw⟩ := genCubes_pairwise n.toNat
  unfold generate_polycubes
  rw [if_neg (by omega)]
  refine hpw.imp_of_mem ?_
  intro p q hp hq hr
  constructor
  · intro r hrm
    rw [all_rotations_eq_map (hwf p hp)] at hrm
    obtain ⟨e, he, her⟩ := List.mem_map.mp hrm
    rw [← her]
    exact hr e he
  · intro r hrm heq
    rw [all_rotations_eq_map (hwf q hq)] at hrm
    obtain ⟨e, he, her⟩ := List.mem_map.mp hrm
    obtain ⟨f, hf, hfe⟩ := rotElems_inv e he
    apply hr f hf
    rw [← heq, ← her, rotE_comp, hfe.1, rotE_id (hwf q hq)]

theorem generate_polycubes_no_rotated_duplicates_witness :
    1 ≤ (1 : Int) ∧ (generate_polycubes 1).Pairwise (fun p q =>
      (∀ r ∈ all_rotations p, r ≠ q) ∧ (∀ r ∈ all_rotations q, r ≠ p)) :=
  ⟨by decide, generate_polycubes_no_rotated_duplicates 1 (by decide)⟩

end PolyCube
